import Mathlib

/-!
Verification of the trellis entity store (a DynamoDB referential-integrity layer)
against its natural-language specification.  The Go sources are shallowly
embedded: pure key-derivation functions (`internal/shard/shard.go`) become Lean
functions over byte lists, the store operations (`store/store.go`) become
functions over explicit attribute-map states with the backing store's
conditional-write semantics made explicit, and the stream cascade handler
(`stream/cascade.go`) becomes a function from a record and an environment of
backing-call outcomes to an effect trace and a result.
-/

namespace Trellis

/-- UTF-8 encoding of one character, mirroring Go's `[]byte(string)` conversion
(Go strings are UTF-8 byte sequences). -/
def utf8Bytes (c : Char) : List Nat :=
  let n := c.toNat
  if n < 128 then [n]
  else if n < 2048 then [192 + n / 64, 128 + n % 64]
  else if n < 65536 then [224 + n / 4096, 128 + n / 64 % 64, 128 + n % 64]
  else [240 + n / 262144, 128 + n / 4096 % 64, 128 + n / 64 % 64, 128 + n % 64]

/-- The UTF-8 bytes of a Go string. -/
def strBytes (s : String) : List Nat :=
  s.data.foldr (fun c acc => utf8Bytes c ++ acc) []

/-- FNV-1a 32-bit hash (`hash/fnv`, `fnv.New32a`): offset basis 2166136261,
prime 16777619, all arithmetic modulo 2^32. -/
def fnv1a32 (bytes : List Nat) : Nat :=
  bytes.foldl (fun h b => ((h ^^^ b) * 16777619) % 4294967296) 2166136261

/-- Lowercase hexadecimal digit for a value below 16: `0`-`9` then `a`-`f`
(mirrors both `encoding/hex` and `fmt`'s `%x` digit alphabet). -/
def hexDigitChar (n : Nat) : Char :=
  if n % 16 < 10 then Char.ofNat (48 + n % 16) else Char.ofNat (87 + n % 16)

/-- The sixteen lowercase hexadecimal digit characters. -/
def hexAlphabet : List Char := "0123456789abcdef".data

/-- Minimal-width lowercase hex digits of a natural number (most significant
first), as produced by Go's `%x` verb.  Fuel-structured so the kernel can
evaluate it; the fuel `n + 1` always suffices since `n / 16 < n` for `n ≥ 16`. -/
def hexCharsAux : Nat → Nat → List Char
  | 0, _ => []
  | f + 1, n =>
    if n < 16 then [hexDigitChar n]
    else hexCharsAux f (n / 16) ++ [hexDigitChar (n % 16)]

/-- Minimal-width lowercase hex rendering of a natural number. -/
def hexChars (n : Nat) : List Char := hexCharsAux (n + 1) n

/-- Go's `%02x` on a non-negative integer: minimal lowercase hex, left-padded
with zeros to a minimum width of two (wider values are NOT truncated). -/
def goHex02 (n : Nat) : String :=
  let ds := hexChars n
  if ds.length < 2 then String.mk ('0' :: ds) else String.mk ds

/-- `shard.RelationshipPK` from `internal/shard/shard.go`: with `numShards ≤ 1`
the shard suffix is `"00"`; otherwise the FNV-1a 32-bit hash of `childRef`
reduced modulo `uint32(numShards)` is rendered with `%02x`.  The Go `int` is
modelled as `Int`; the `uint32(numShards)` conversion is the `% 2^32`.
(Go would divide by zero if `numShards` were an exact multiple of 2^32; that
unreachable configuration is not modelled.) -/
def RelationshipPK (parentRef childRef : String) (numShards : Int) : String :=
  if numShards ≤ 1 then parentRef ++ "#00"
  else parentRef ++ "#" ++ goHex02 (fnv1a32 (strBytes childRef) % (numShards.toNat % 4294967296))

/-- Hex encoding of a byte (two lowercase digits), as in `encoding/hex`. -/
def hexByte (b : Nat) : List Char := [hexDigitChar (b / 16 % 16), hexDigitChar (b % 16)]

/-- `hex.EncodeToString` over a byte list. -/
def hexEncode (bs : List Nat) : String :=
  String.mk (bs.foldr (fun b acc => hexByte b ++ acc) [])

end Trellis

namespace Trellis

/-! ### SHA-256 (`crypto/sha256`), FIPS 180-4, over byte lists with `Nat`
arithmetic modulo 2^32. -/

/-- 32-bit right rotation of a word (words are naturals below 2^32). -/
def rotr32 (n x : Nat) : Nat :=
  (x / 2 ^ n + x % 2 ^ n * 2 ^ (32 - n)) % 4294967296

/-- SHA-256 Ch function. -/
def shaCh (x y z : Nat) : Nat := (x &&& y) ^^^ ((x ^^^ 4294967295) &&& z)

/-- SHA-256 Maj function. -/
def shaMaj (x y z : Nat) : Nat := (x &&& y) ^^^ (x &&& z) ^^^ (y &&& z)

/-- SHA-256 Σ0. -/
def shaBigSigma0 (x : Nat) : Nat := rotr32 2 x ^^^ rotr32 13 x ^^^ rotr32 22 x

/-- SHA-256 Σ1. -/
def shaBigSigma1 (x : Nat) : Nat := rotr32 6 x ^^^ rotr32 11 x ^^^ rotr32 25 x

/-- SHA-256 σ0. -/
def shaSmallSigma0 (x : Nat) : Nat := rotr32 7 x ^^^ rotr32 18 x ^^^ x / 8

/-- SHA-256 σ1. -/
def shaSmallSigma1 (x : Nat) : Nat := rotr32 17 x ^^^ rotr32 19 x ^^^ x / 1024

/-- The 64 SHA-256 round constants. -/
def shaK : List Nat :=
  [1116352408, 1899447441, 3049323471, 3921009573,
   961987163, 1508970993, 2453635748, 2870763221,
   3624381080, 310598401, 607225278, 1426881987,
   1925078388, 2162078206, 2614888103, 3248222580,
   3835390401, 4022224774, 264347078, 604807628,
   770255983, 1249150122, 1555081692, 1996064986,
   2554220882, 2821834349, 2952996808, 3210313671,
   3336571891, 3584528711, 113926993, 338241895,
   666307205, 773529912, 1294757372, 1396182291,
   1695183700, 1986661051, 2177026350, 2456956037,
   2730485921, 2820302411, 3259730800, 3345764771,
   3516065817, 3600352804, 4094571909, 275423344,
   430227734, 506948616, 659060556, 883997877,
   958139571, 1322822218, 1537002063, 1747873779,
   1955562222, 2024104815, 2227730452, 2361852424,
   2428436474, 2756734187, 3204031479, 3329325298]

/-- SHA-256 working state (eight 32-bit words). -/
structure ShaState where
  a : Nat
  b : Nat
  c : Nat
  d : Nat
  e : Nat
  f : Nat
  g : Nat
  h : Nat

/-- The SHA-256 initial hash value. -/
def shaInit : ShaState :=
  ⟨0x6a09e667, 0xbb67ae85, 0x3c6ef372, 0xa54ff53a, 0x510e527f, 0x9b05688c, 0x1f83d9ab, 0x5be0cd19⟩

/-- One SHA-256 compression round with round constant `k` and schedule word `w`. -/
def shaRound (st : ShaState) (k w : Nat) : ShaState :=
  let t1 := (st.h + shaBigSigma1 st.e + shaCh st.e st.f st.g + k + w) % 4294967296
  let t2 := (shaBigSigma0 st.a + shaMaj st.a st.b st.c) % 4294967296
  ⟨(t1 + t2) % 4294967296, st.a, st.b, st.c, (st.d + t1) % 4294967296, st.e, st.f, st.g⟩

/-- Extend the sixteen message words of one chunk to the 64-word schedule. -/
def shaSchedule (w16 : List Nat) : List Nat :=
  (List.range 48).foldl
    (fun w _ =>
      w ++ [(shaSmallSigma1 (w.getD (w.length - 2) 0) + w.getD (w.length - 7) 0 +
             shaSmallSigma0 (w.getD (w.length - 15) 0) + w.getD (w.length - 16) 0) % 4294967296])
    w16

/-- The sixteen big-endian 32-bit words of a 64-byte chunk. -/
def shaWords16 (chunk : List Nat) : List Nat :=
  (List.range 16).map fun i =>
    chunk.getD (4 * i) 0 * 16777216 + chunk.getD (4 * i + 1) 0 * 65536 +
    chunk.getD (4 * i + 2) 0 * 256 + chunk.getD (4 * i + 3) 0

/-- Process one 64-byte chunk: run the 64 compression rounds and add the
result into the incoming state (all modulo 2^32). -/
def shaChunk (st : ShaState) (chunk : List Nat) : ShaState :=
  let w := shaSchedule (shaWords16 chunk)
  let fin := (shaK.zip w).foldl (fun s kw => shaRound s kw.1 kw.2) st
  ⟨(st.a + fin.a) % 4294967296, (st.b + fin.b) % 4294967296,
   (st.c + fin.c) % 4294967296, (st.d + fin.d) % 4294967296,
   (st.e + fin.e) % 4294967296, (st.f + fin.f) % 4294967296,
   (st.g + fin.g) % 4294967296, (st.h + fin.h) % 4294967296⟩

/-- Big-endian 64-bit byte rendering of a natural number (the padded bit
length field). -/
def be64 (v : Nat) : List Nat :=
  [v / 2 ^ 56 % 256, v / 2 ^ 48 % 256, v / 2 ^ 40 % 256, v / 2 ^ 32 % 256,
   v / 2 ^ 24 % 256, v / 2 ^ 16 % 256, v / 2 ^ 8 % 256, v % 256]

/-- SHA-256 padding: append 0x80, zero-pad to 56 mod 64, append the 64-bit
big-endian bit length. -/
def shaPad (msg : List Nat) : List Nat :=
  let l := msg.length
  let zeros := (64 + 56 - (l + 1) % 64) % 64
  msg ++ [128] ++ List.replicate zeros 0 ++ be64 (8 * l)

/-- Split a byte list into 64-byte chunks (fuel-structured on the number of
chunks so the kernel can evaluate it). -/
def chunks64Aux : Nat → List Nat → List (List Nat)
  | 0, _ => []
  | _, [] => []
  | f + 1, l => l.take 64 :: chunks64Aux f (l.drop 64)

/-- Split a byte list into 64-byte chunks. -/
def chunks64 (l : List Nat) : List (List Nat) := chunks64Aux (l.length / 64 + 1) l

/-- Big-endian bytes of one 32-bit word. -/
def word4 (w : Nat) : List Nat := [w / 16777216 % 256, w / 65536 % 256, w / 256 % 256, w % 256]

/-- The SHA-256 digest (32 bytes) of a byte list (`sha256.Sum256`). -/
def sha256Bytes (msg : List Nat) : List Nat :=
  let fin := (chunks64 (shaPad msg)).foldl shaChunk shaInit
  word4 fin.a ++ word4 fin.b ++ word4 fin.c ++ word4 fin.d ++
  word4 fin.e ++ word4 fin.f ++ word4 fin.g ++ word4 fin.h

/-- The `"%s#%s#%s#%s"` joined constraint tuple hashed by
`shard.UniqueConstraintPK`. -/
def uniqueData (parentRef entityType field value : String) : String :=
  parentRef ++ "#" ++ entityType ++ "#" ++ field ++ "#" ++ value

/-- `shard.UniqueConstraintPK` from `internal/shard/shard.go`: SHA-256 of the
`#`-joined components, first 16 bytes, lowercase hex. -/
def UniqueConstraintPK (parentRef entityType field value : String) : String :=
  hexEncode ((sha256Bytes (strBytes (uniqueData parentRef entityType field value))).take 16)

end Trellis

namespace Trellis

/-! ### Store data model (`store/entity.go`, `store/errors.go`)

DynamoDB items (`map[string]types.AttributeValue`) are modelled as association
lists of attribute name/value pairs; number attributes carry the number they
denote (DynamoDB's `N` values are decimal renderings of numbers). -/

/-- A DynamoDB attribute value (`types.AttributeValue`): string, number,
list, or any other member kind the claims never inspect.  The only lists the
store writes are the `_unique_pks` string lists, so list members are modelled
as string lists. -/
inductive AttrVal where
  | s (v : String)
  | n (v : Int)
  | l (vs : List String)
  | other
deriving DecidableEq, Repr

/-- A DynamoDB item: attribute name/value association list. -/
abbrev AttrMap := List (String × AttrVal)

/-- Attribute lookup in an item. -/
def attrGet : AttrMap → String → Option AttrVal
  | [], _ => none
  | (k', v) :: rest, k => if k' = k then some v else attrGet rest k

/-- Attribute assignment in an item (replace in place, else append),
modelling a `SET` of one attribute. -/
def attrSet : AttrMap → String → AttrVal → AttrMap
  | [], k, v => [(k, v)]
  | (k', v') :: rest, k, v =>
    if k' = k then (k, v) :: rest else (k', v') :: attrSet rest k v

/-- The errors a store call can produce: the seven trellis sentinel errors of
`store/errors.go`, the AWS SDK exception values the store inspects
(`ConditionalCheckFailedException`, `TransactionCanceledException` with its
per-item cancellation-reason codes), `context.Canceled`, and opaque
backing-store errors. -/
inductive GoErr where
  | parentNotFound
  | notFound
  | alreadyExists
  | hasChildren
  | concurrentModification
  | duplicateValue
  | alreadyDeleted
  | condCheckFailed
  | txCanceled (reasons : List (Option String))
  | ctxCanceled
  | generic (tag : Nat)
deriving DecidableEq, Repr

/-- Index of the first cancellation reason whose code is
`"ConditionalCheckFailed"`, mirroring the `for i, reason` loops of the two
transaction-error mappers (which return at the first such reason). -/
def firstCCFIdx : List (Option String) → Option Nat
  | [] => none
  | r :: rest =>
    if r = some "ConditionalCheckFailed" then some 0
    else (firstCCFIdx rest).map (· + 1)

/-- `Store.mapCreateTransactionError` (`store/store.go`): a
`TransactionCanceledException` is classified by the position of the first
conditional-check-failed reason against the parent-check and entity-put item
indices; everything else (including a cancellation with no conditional-check
failure) is returned unmodified.  `none` models a nil error. -/
def mapCreateTransactionError (e : Option GoErr) (parentCheckIndex entityPutIndex : Int) :
    Option GoErr :=
  match e with
  | none => none
  | some (.txCanceled reasons) =>
    match firstCCFIdx reasons with
    | some i =>
      if (i : Int) = parentCheckIndex then some .parentNotFound
      else if (i : Int) = entityPutIndex then some .alreadyExists
      else some .duplicateValue
    | none => some (.txCanceled reasons)
  | some e' => some e'

/-- `Store.mapUpdateTransactionError` (`store/store.go`): any
conditional-check-failed reason in a cancelled transaction becomes
`ErrDuplicateValue`; everything else is returned unmodified. -/
def mapUpdateTransactionError (e : Option GoErr) : Option GoErr :=
  match e with
  | none => none
  | some (.txCanceled reasons) =>
    if reasons.any (· = some "ConditionalCheckFailed") then some .duplicateValue
    else some (.txCanceled reasons)
  | some e' => some e'

/-- The semantic role of one item of the transaction `Store.Create` builds,
in the order the code appends them. -/
inductive CreateTxRole where
  | parentCheck
  | constraintPut (pk : String)
  | entityPut
  | relationshipPut
deriving DecidableEq, Repr

/-- Whether a transaction item of `Store.Create` carries a condition
expression (the relationship-record put is unconditional). -/
def roleHasCondition : CreateTxRole → Bool
  | .parentCheck => true
  | .constraintPut _ => true
  | .entityPut => true
  | .relationshipPut => false

/-- The ordered item roles of the transaction `Store.Create` submits:
an optional parent condition check, one conditional put per unique-field
constraint reservation, the conditional entity put, and an unconditional
relationship-record put when the entity has a non-empty parent reference. -/
def createTxRoles (hasParentCheck : Bool) (constraintPKs : List String)
    (parentRefNonEmpty : Bool) : List CreateTxRole :=
  (if hasParentCheck then [CreateTxRole.parentCheck] else []) ++
  constraintPKs.map CreateTxRole.constraintPut ++
  [CreateTxRole.entityPut] ++
  (if parentRefNonEmpty then [CreateTxRole.relationshipPut] else [])

/-- `parentCheckIndex` as tracked by `Store.Create`: 0 when the entity has a
parent check (it is appended first), -1 otherwise. -/
def createParentCheckIndex (hasParentCheck : Bool) : Int :=
  if hasParentCheck then 0 else -1

/-- `entityPutIndex` as tracked by `Store.Create`: the number of items
appended before the entity put (the optional parent check plus one
constraint reservation per unique field). -/
def createEntityPutIndex (hasParentCheck : Bool) (constraintPKs : List String) : Int :=
  (if hasParentCheck then 1 else 0) + constraintPKs.length

end Trellis

namespace Trellis

/-! ### TTL helpers (`store/ttl.go`) and Get -/

/-- `store.IsDeleted` at an explicit read time: the item is deleted iff it has
a number-typed `ttl` attribute whose value is ≤ the read time (a missing,
non-number, or unparseable `ttl` means active). -/
def isDeletedAt (item : AttrMap) (now : Int) : Bool :=
  match attrGet item "ttl" with
  | some (.n t) => t ≤ now
  | _ => false

/-- `Store.Get`: a missing item or a tombstoned one (per `IsDeleted`) reports
`ErrNotFound`; otherwise the raw item is returned (the claims only consult the
raw attributes, so `unmarshalItem` is the identity here). -/
def getOp (stored : Option AttrMap) (now : Int) : Except GoErr AttrMap :=
  match stored with
  | none => .error .notFound
  | some item => if isDeletedAt item now then .error .notFound else .ok item

/-! ### Update (`store/store.go`: `Update`, `updateSimple`,
`updateWithUniqueConstraints`) -/

/-- The ORM-managed attribute names both update paths skip when copying
caller-supplied attributes into the `SET` expression. -/
def isManagedKey (k : String) : Bool :=
  k = "id" || k = "entity_ref" || k = "parent_ref" || k = "version" ||
  k = "created_at" || k = "updated_at" || k = "ttl" || k = "_unique_pks"

/-- One clause of a DynamoDB `SET` update expression as the store builds them:
a plain assignment, or the `#version = #version + :one` increment. -/
inductive SetAction where
  | assign (k : String) (v : AttrVal)
  | incrVersion
deriving DecidableEq, Repr

/-- Apply one `SET` clause to an item.  The version increment assumes a
number-typed `version` attribute (DynamoDB would reject the expression
otherwise; the store's condition expressions keep that branch unreachable). -/
def applyAction (item : AttrMap) : SetAction → AttrMap
  | .assign k v => attrSet item k v
  | .incrVersion =>
    match attrGet item "version" with
    | some (.n v) => attrSet item "version" (.n (v + 1))
    | _ => item

/-- Apply a list of `SET` clauses left to right. -/
def applyActions (item : AttrMap) (actions : List SetAction) : AttrMap :=
  actions.foldl applyAction item

/-- The `SET` clauses `updateSimple` builds: every caller attribute except the
managed ones, then `updated_at = now` and the version increment. -/
def simpleSetActions (callerItem : AttrMap) (nowISO : String) : List SetAction :=
  (callerItem.filter fun kv => !isManagedKey kv.1).map (fun kv => .assign kv.1 kv.2) ++
  [.assign "updated_at" (.s nowISO), .incrVersion]

/-- The `SET` clauses the entity update of `updateWithUniqueConstraints`
builds: like the simple ones, plus `_unique_pks` rewritten to the freshly
computed constraint keys. -/
def uniqueSetActions (callerItem : AttrMap) (nowISO : String) (newUniquePKs : List String) :
    List SetAction :=
  (callerItem.filter fun kv => !isManagedKey kv.1).map (fun kv => .assign kv.1 kv.2) ++
  [.assign "updated_at" (.s nowISO), .incrVersion, .assign "_unique_pks" (.l newUniquePKs)]

/-- The condition expression
`#version = :expected_version AND attribute_not_exists(#ttl)` evaluated on an
item: the version attribute must be a number equal to the expected version,
and no `ttl` attribute may exist. -/
def versionTTLGuard (item : AttrMap) (expectedVersion : Int) : Bool :=
  (match attrGet item "version" with
   | some (.n v) => v = expectedVersion
   | _ => false) &&
  (attrGet item "ttl").isNone

/-- `Store.updateSimple`: one conditional `UpdateItem` guarded by
`versionTTLGuard`; a condition failure (for any reason, including a missing
item, whose attribute references all fail the guard) surfaces as
`ErrConcurrentModification`. -/
def updateSimpleOp (stored : Option AttrMap) (callerItem : AttrMap)
    (expectedVersion : Int) (nowISO : String) : Except GoErr (Option AttrMap) :=
  match stored with
  | none => .error .concurrentModification
  | some item =>
    if versionTTLGuard item expectedVersion then
      .ok (some (applyActions item (simpleSetActions callerItem nowISO)))
    else .error .concurrentModification

/-- The prior unique value of a field as `updateWithUniqueConstraints` reads
it from the current raw item (only string-typed attributes count). -/
def oldUniqueOf (currentRaw : AttrMap) (field : String) : Option String :=
  match attrGet currentRaw field with
  | some (.s v) => some v
  | _ => none

/-- The unique fields whose new value differs from the stored one
(`!ok || oldValue != newValue` in the source). -/
def changedUniqueFields (currentRaw : AttrMap) (newUniques : List (String × String)) :
    List (String × String) :=
  newUniques.filter fun fv => oldUniqueOf currentRaw fv.1 ≠ some fv.2

/-- `Store.updateWithUniqueConstraints` after its `Get`: with no changed
unique field it falls back to the simple update; otherwise it submits one
transaction of stale-constraint deletes (unconditional), new-constraint
conditional puts (`attribute_not_exists(pk)` against the unique table's
current key set), and the entity update under `versionTTLGuard`.  On any
failed condition the backing store cancels the transaction and reports a
conditional-check-failed reason for the failing item, which
`mapUpdateTransactionError` turns into `ErrDuplicateValue`. -/
def updateUniqueAfterGet (current : AttrMap) (callerItem : AttrMap)
    (expectedVersion : Int) (nowISO : String) (parentRef entityType : String)
    (newUniques : List (String × String)) (uniqueTablePKs : List String) :
    Except GoErr (Option AttrMap) :=
  let changed := changedUniqueFields current newUniques
  if changed.isEmpty then updateSimpleOp (some current) callerItem expectedVersion nowISO
  else
    let newUniquePKs := newUniques.map fun fv =>
      UniqueConstraintPK parentRef entityType fv.1 fv.2
    let putsOK := changed.all fun fv =>
      !uniqueTablePKs.contains (UniqueConstraintPK parentRef entityType fv.1 fv.2)
    let entityOK := versionTTLGuard current expectedVersion
    if putsOK && entityOK then
      .ok (some (applyActions current (uniqueSetActions callerItem nowISO newUniquePKs)))
    else
      .error ((mapUpdateTransactionError
        (some (.txCanceled
          ((changed.map fun fv =>
             if uniqueTablePKs.contains (UniqueConstraintPK parentRef entityType fv.1 fv.2)
             then some "ConditionalCheckFailed" else some "None") ++
           [if entityOK then some "None" else some "ConditionalCheckFailed"])))).getD
        .duplicateValue)

/-- The view `Store.Update` takes of an entity: whether it implements
`UniqueFielder` (and the mapping it returns, as an association list) and
whether it implements `ParentChecker` (and the parent reference). -/
structure UEntity where
  hasUniqueFields : Bool
  uniqueFields : List (String × String)
  hasParent : Bool
  parentRef : String
  entityType : String

/-- The path predicate of `Store.Update`: the unique-aware path runs iff the
entity has unique fields, has a parent checker, and its parent reference is
non-empty. -/
def uniquePathSelected (ent : UEntity) : Bool :=
  ent.hasUniqueFields && ent.hasParent && ent.parentRef ≠ ""

/-- `Store.Update`: path selection, the unique path's initial `Get` (whose
error propagates), and the two update flavours.  `stored` is the current
backing-table item (or `none`), `uniqueTablePKs` the keys currently present in
the unique-constraint table, `now` the read-time clock, `nowISO` the rendered
update timestamp. -/
def UpdateOp (ent : UEntity) (stored : Option AttrMap) (uniqueTablePKs : List String)
    (callerItem : AttrMap) (expectedVersion : Int) (now : Int) (nowISO : String) :
    Except GoErr (Option AttrMap) :=
  if uniquePathSelected ent then
    match getOp stored now with
    | .error e => .error e
    | .ok current =>
      updateUniqueAfterGet current callerItem expectedVersion nowISO
        ent.parentRef ent.entityType ent.uniqueFields uniqueTablePKs
  else updateSimpleOp stored callerItem expectedVersion nowISO

/-! ### Delete / SetTTL (`store/store.go`) -/

/-- The raw conditional `UpdateItem` of `Store.SetTTL`:
`SET #ttl = :now, #version = #version + :one` guarded by
`attribute_not_exists(#ttl)`.  On a missing item the update expression
references a missing `version` attribute and the backing store rejects the
request (modelled as an opaque validation error). -/
def setTTLRaw (stored : Option AttrMap) (now : Int) : Except GoErr (Option AttrMap) :=
  match stored with
  | none => .error (.generic 0)
  | some item =>
    if (attrGet item "ttl").isNone then
      .ok (some (applyActions item [.assign "ttl" (.n now), .incrVersion]))
    else .error .condCheckFailed

/-- `Store.SetTTL`: the conditional update with the conditional-check failure
swallowed (already deleted ⇒ success, state untouched). -/
def SetTTLOp (stored : Option AttrMap) (now : Int) : Except GoErr Unit × Option AttrMap :=
  match setTTLRaw stored now with
  | .ok item => (.ok (), item)
  | .error .condCheckFailed => (.ok (), stored)
  | .error e => (.error e, stored)

/-- `store.DeleteOptions`. -/
structure DeleteOptions where
  cascade : Bool
  orphanProtect : Bool

/-- `Store.Delete`: with `OrphanProtect` and without `Cascade` it first runs
the `HasActiveChildren` probe (outcome supplied as `probe`), aborting with the
probe's error or with `ErrHasChildren`; otherwise it runs `SetTTL`. -/
def DeleteOp (probe : Except GoErr Bool) (opts : DeleteOptions)
    (stored : Option AttrMap) (now : Int) : Except GoErr Unit × Option AttrMap :=
  if opts.orphanProtect && !opts.cascade then
    match probe with
    | .error e => (.error e, stored)
    | .ok true => (.error .hasChildren, stored)
    | .ok false => SetTTLOp stored now
  else SetTTLOp stored now

end Trellis

namespace Trellis

/-! ### Stream cascade handler (`stream/cascade.go`)

Stream images (`map[string]events.DynamoDBAttributeValue`) keep their number
attributes as the decimal strings DynamoDB streams deliver; the handler parses
them with `strconv.ParseInt`, modelled by `goParseInt64`. -/

/-- A DynamoDB stream attribute value (`events.DynamoDBAttributeValue`):
string, number (decimal string), list, or any other kind. -/
inductive StreamAttr where
  | str (v : String)
  | num (v : String)
  | lst (vs : List StreamAttr)
  | otherKind

/-- A stream image: attribute name/value association list. -/
abbrev StreamImage := List (String × StreamAttr)

/-- Lookup in a stream image. -/
def imgGet : StreamImage → String → Option StreamAttr
  | [], _ => none
  | (k', v) :: rest, k => if k' = k then some v else imgGet rest k

/-- The numeric value of a decimal digit character, if it is one. -/
def decDigitVal? (c : Char) : Option Nat :=
  if 48 ≤ c.toNat ∧ c.toNat ≤ 57 then some (c.toNat - 48) else none

/-- Accumulate the value of a decimal digit sequence; `none` on the first
non-digit (Go's syntax error). -/
def decValAux : List Char → Nat → Option Nat
  | [], acc => some acc
  | c :: cs, acc =>
    match decDigitVal? c with
    | none => none
    | some d => decValAux cs (acc * 10 + d)

/-- `strconv.ParseInt(s, 10, 64)` with its error discarded, as the handler
uses it (`n, _ := strconv.ParseInt(...)`): syntax errors yield 0, range
errors yield the clamped extreme, otherwise the parsed value. -/
def goParseInt64 (s : String) : Int :=
  match s.data with
  | [] => 0
  | c :: cs =>
    let signed : Bool × List Char :=
      if c = '-' then (true, cs) else if c = '+' then (false, cs) else (false, c :: cs)
    match signed.2 with
    | [] => 0
    | ds =>
      match decValAux ds 0 with
      | none => 0
      | some v =>
        if signed.1 then max (-9223372036854775808) (-(v : Int))
        else min 9223372036854775807 (v : Int)

/-- `getNumberAttr`: 0 for a missing or non-number attribute, otherwise the
parsed decimal value. -/
def getNumberAttr (img : StreamImage) (key : String) : Int :=
  match imgGet img key with
  | some (.num s) => goParseInt64 s
  | _ => 0

/-- `getStringAttr`: the string value of a present attribute, `""` when
missing.  (The Go accessor `v.String()` type-asserts; a present non-string
value is modelled as `""` — the handler only reads attributes the store wrote
as strings.) -/
def getStringAttr (img : StreamImage) (key : String) : String :=
  match imgGet img key with
  | some (.str s) => s
  | _ => ""

/-- `getStringListAttr`: the string members of a present list attribute
(non-string members are skipped), `[]` when missing or non-list. -/
def getStringListAttr (img : StreamImage) (key : String) : List String :=
  match imgGet img key with
  | some (.lst vs) =>
    vs.foldr (fun v acc => match v with | .str s => s :: acc | _ => acc) []
  | _ => []

/-- A relationship-table child entry as `QueryAllChildren` returns it
(`store.ChildRef`; the primary key is opaque to the cascade handler). -/
structure ChildRefM where
  ref : String
  tableName : String

/-- The outcomes of the store calls one `processRecord` invocation makes:
the children read and the three TTL-setting operations (each already
idempotent — their own conditional-check failures are swallowed inside the
store, so an error here is a hard failure). -/
structure CascadeEnv where
  queryAllChildren : Except GoErr (List ChildRefM)
  setTTLByKey : ChildRefM → Except GoErr Unit
  setRelationshipTTL : Except GoErr Unit
  setUniqueConstraintTTL : String → Except GoErr Unit

/-- One DynamoDB stream record (`events.DynamoDBEventRecord`): event name and
the pre- and post-images of the change. -/
structure StreamRecord where
  eventName : String
  oldImage : StreamImage
  newImage : StreamImage

/-- The trace of backing-store calls `processRecord` makes; the Boolean on
the TTL-setting effects records whether the call succeeded (a failure is
logged and skipped, not surfaced). -/
inductive CascadeEffect where
  | queriedChildren
  | childTTLSet (ref : String) (ok : Bool)
  | relationshipTTLSet (ok : Bool)
  | uniqueTTLSet (pk : String) (ok : Bool)
deriving DecidableEq, Repr

/-- `Handler.processRecord` (`stream/cascade.go`): ignore everything except a
`"MODIFY"` whose `ttl` went from absent/zero to non-zero; then read the
children (an error here is surfaced, wrapped), set the same TTL on every
child (per-child failures logged and skipped), tombstone the entity's own
relationship edge when it has a parent (failure logged and skipped), and
tombstone each held unique-constraint record (failures logged and skipped).
Returns the effect trace and the handler result. -/
def processRecord (env : CascadeEnv) (r : StreamRecord) :
    List CascadeEffect × Except GoErr Unit :=
  if r.eventName ≠ "MODIFY" then ([], .ok ())
  else
    let oldTTL := getNumberAttr r.oldImage "ttl"
    let newTTL := getNumberAttr r.newImage "ttl"
    if oldTTL ≠ 0 ∨ newTTL = 0 then ([], .ok ())
    else
      let parentRef := getStringAttr r.newImage "parent_ref"
      let uniquePKs := getStringListAttr r.newImage "_unique_pks"
      match env.queryAllChildren with
      | .error e => ([.queriedChildren], .error e)
      | .ok children =>
        let childEffects := children.map fun c =>
          CascadeEffect.childTTLSet c.ref (env.setTTLByKey c matches .ok _)
        let relEffects :=
          if parentRef ≠ "" then
            [CascadeEffect.relationshipTTLSet (env.setRelationshipTTL matches .ok _)]
          else []
        let uniqueEffects := uniquePKs.map fun pk =>
          CascadeEffect.uniqueTTLSet pk (env.setUniqueConstraintTTL pk matches .ok _)
        (.queriedChildren :: childEffects ++ relEffects ++ uniqueEffects, .ok ())

end Trellis

namespace Trellis

/-! ### Query (`store/store.go: Query`) with a small expression semantics

The condition/filter expression strings the store builds are embedded as
syntax trees; `ttlFilterCond` is the tree of `TTLFilterExpr()`
(`"attribute_not_exists(#ttl) OR #ttl > :now"`), and the merge
`"(" + user + ") AND (" + ttl + ")"` is the `and` node.  Expression attribute
names and values are association lists merged exactly as the Go maps are:
defaults first, caller entries assigned after (so a caller entry with the
same key wins). -/

/-- A DynamoDB condition/filter expression. -/
inductive CondExpr where
  | attrExists (nm : String)
  | attrNotExists (nm : String)
  | gtNum (nm ph : String)
  | eqPH (nm ph : String)
  | and (a b : CondExpr)
  | or (a b : CondExpr)

/-- String-map assignment (replace in place, else append), modelling Go map
assignment for expression attribute names. -/
def strSet : List (String × String) → String → String → List (String × String)
  | [], k, v => [(k, v)]
  | (k', v') :: rest, k, v =>
    if k' = k then (k, v) :: rest else (k', v') :: strSet rest k v

/-- String-map lookup. -/
def strGet : List (String × String) → String → Option String
  | [], _ => none
  | (k', v) :: rest, k => if k' = k then some v else strGet rest k

/-- Resolve an expression attribute name: `#`-prefixed placeholders go
through the names map (an unknown placeholder is a validation error, `none`);
plain names denote themselves. -/
def resolveName (names : List (String × String)) (nm : String) : Option String :=
  match nm.data with
  | '#' :: _ => strGet names nm
  | _ => some nm

/-- Evaluate a condition expression on an item under the given expression
attribute names and values; `none` models a request validation error
(unresolvable placeholder).  Comparisons follow DynamoDB: a missing attribute
or a type mismatch makes a comparison false, never an error. -/
def evalCond (names : List (String × String)) (values : List (String × AttrVal))
    (item : AttrMap) : CondExpr → Option Bool
  | .attrExists nm => (resolveName names nm).map fun a => (attrGet item a).isSome
  | .attrNotExists nm => (resolveName names nm).map fun a => (attrGet item a).isNone
  | .gtNum nm ph =>
    match resolveName names nm, attrGet values ph with
    | some a, some pv =>
      some (match attrGet item a, pv with
            | some (.n av), .n p => decide (av > p)
            | _, _ => false)
    | _, _ => none
  | .eqPH nm ph =>
    match resolveName names nm, attrGet values ph with
    | some a, some pv =>
      some (match attrGet item a with
            | some av => decide (av = pv)
            | none => false)
    | _, _ => none
  | .and a b =>
    match evalCond names values item a, evalCond names values item b with
    | some x, some y => some (x && y)
    | _, _ => none
  | .or a b =>
    match evalCond names values item a, evalCond names values item b with
    | some x, some y => some (x || y)
    | _, _ => none

/-- The tree of `TTLFilterExpr()`:
`attribute_not_exists(#ttl) OR #ttl > :now`. -/
def ttlFilterCond : CondExpr := .or (.attrNotExists "#ttl") (.gtNum "#ttl" ":now")

/-- The caller-facing `store.QueryInput` fields the claims depend on (table
name, index, limit and sort order only shape pagination, which the model
exhausts anyway). -/
structure QueryInputM where
  keyCond : CondExpr
  filter : Option CondExpr
  exprNames : List (String × String)
  exprValues : List (String × AttrVal)

/-- Evaluate key condition and filter over the table rows, keeping matches;
an expression validation error fails the whole query. -/
def runRows (names : List (String × String)) (values : List (String × AttrVal))
    (kc filt : CondExpr) : List AttrMap → Except GoErr (List AttrMap)
  | [] => .ok []
  | row :: rest =>
    match evalCond names values row kc, evalCond names values row filt with
    | some true, some true => (runRows names values kc filt rest).map (row :: ·)
    | some _, some _ => runRows names values kc filt rest
    | _, _ => .error (.generic 1)

/-- `Store.Query`: intersect the caller filter (if any) with the TTL filter,
merge the expression attribute names over the default `#ttl ↦ ttl`, merge the
expression attribute values over the default `:now ↦ now`, and return every
matching row (pagination runs to exhaustion). -/
def QueryOp (table : List AttrMap) (input : QueryInputM) (now : Int) :
    Except GoErr (List AttrMap) :=
  let names := input.exprNames.foldl (fun m kv => strSet m kv.1 kv.2) [("#ttl", "ttl")]
  let values := input.exprValues.foldl (fun m kv => attrSet m kv.1 kv.2)
    [(":now", AttrVal.n now)]
  let filt := match input.filter with
    | none => ttlFilterCond
    | some f => .and f ttlFilterCond
  runRows names values input.keyCond filt table

/-! ### HasActiveChildren, multi-shard path (`store/store.go`)

The fan-out spawns one goroutine per shard; a shard that finds an active edge
does a non-blocking send on the 1-buffered `found` channel and cancels the
context, a shard whose query errors sends the error on `errs`, and a closer
goroutine closes both channels after all workers finish.  The model below
captures the executions in which the main goroutine reaches its `select`
after both channels are closed: both cases are then ready (receiving from a
closed channel yields the zero value immediately), and `pickFound` is the
`select`'s choice between them.  Note the `found` case returns `true`
unconditionally — also when the channel was merely closed and nothing was
ever sent — and the `errs` case returns the first buffered error without
filtering `context.Canceled` (only the later drain loop filters it). -/

/-- What one shard's worker contributed before the join: an active edge was
found, nothing was found, or the query failed with an error. -/
inductive ShardOutcome where
  | hit
  | empty
  | errOut (e : GoErr)
deriving DecidableEq, Repr

/-- The post-join `select` and drain loop of the multi-shard
`HasActiveChildren`. -/
def hasActiveChildrenJoin (outcomes : List ShardOutcome) (pickFound : Bool) :
    Bool × Option GoErr :=
  let errsBuf := outcomes.foldr
    (fun o acc => match o with | .errOut e => e :: acc | _ => acc) []
  if pickFound then (true, none)
  else
    match errsBuf with
    | e :: _ => (false, some e)
    | [] =>
      (false, none)

end Trellis

namespace Trellis

/-! ### Canonical decimal renderings

The store writes every `ttl` with `strconv.FormatInt`, so the stream images
carry canonical decimal strings.  `natDecChars`/`intDecRepr` model that
rendering; the roundtrip through `goParseInt64` is proved below and lets the
cascade claims be stated over the numeric TTL values. -/

/-- Decimal digit character of a value below 10. -/
def decDigitChar (n : Nat) : Char := Char.ofNat (48 + n % 10)

/-- Minimal decimal digits of a natural number, most significant first
(fuel-structured; fuel `n + 1` suffices). -/
def natDecCharsAux : Nat → Nat → List Char
  | 0, _ => []
  | f + 1, n =>
    if n < 10 then [decDigitChar n]
    else natDecCharsAux f (n / 10) ++ [decDigitChar (n % 10)]

/-- Minimal decimal rendering of a natural number. -/
def natDecChars (n : Nat) : List Char := natDecCharsAux (n + 1) n

/-- `strconv.FormatInt(i, 10)`: minimal decimal rendering with a leading
minus sign for negative values. -/
def intDecRepr (i : Int) : String :=
  if i < 0 then String.mk ('-' :: natDecChars (-i).toNat)
  else String.mk (natDecChars i.toNat)

end Trellis

namespace Trellis

/-! ### Basic lemmas about the map and digit helpers -/

lemma attrGet_attrSet (m : AttrMap) (k k' : String) (v : AttrVal) :
    attrGet (attrSet m k v) k' = if k = k' then some v else attrGet m k' := by
  induction m with
  | nil => by_cases h : k = k' <;> simp [attrSet, attrGet, h]
  | cons kv rest ih =>
    obtain ⟨k0, v0⟩ := kv
    by_cases h0 : k0 = k
    · subst h0
      by_cases h : k0 = k' <;> simp [attrSet, attrGet, h]
    · by_cases h : k0 = k'
      · subst h
        have : ¬ k = k0 := fun hh => h0 hh.symm
        simp [attrSet, attrGet, h0, this]
      · simp [attrSet, attrGet, h0, h, ih]

lemma strGet_strSet (m : List (String × String)) (k k' v : String) :
    strGet (strSet m k v) k' = if k = k' then some v else strGet m k' := by
  induction m with
  | nil => by_cases h : k = k' <;> simp [strSet, strGet, h]
  | cons kv rest ih =>
    obtain ⟨k0, v0⟩ := kv
    by_cases h0 : k0 = k
    · subst h0
      by_cases h : k0 = k' <;> simp [strSet, strGet, h]
    · by_cases h : k0 = k'
      · subst h
        have : ¬ k = k0 := fun hh => h0 hh.symm
        simp [strSet, strGet, h0, this]
      · simp [strSet, strGet, h0, h, ih]

/-- Folding caller entries over a defaults map leaves every key the caller
does not mention at its default. -/
lemma strGet_foldl_strSet_of_notMem (caller : List (String × String))
    (init : List (String × String)) (k : String)
    (h : ∀ v, (k, v) ∉ caller) :
    strGet (caller.foldl (fun m kv => strSet m kv.1 kv.2) init) k = strGet init k := by
  induction caller generalizing init with
  | nil => rfl
  | cons kv rest ih =>
    obtain ⟨k0, v0⟩ := kv
    have hk0 : ¬ k0 = k := by
      intro hh
      exact h v0 (by simp [hh])
    have := ih (strSet init k0 v0) (fun v hv => h v (List.mem_cons_of_mem _ hv))
    rw [List.foldl_cons, this, strGet_strSet]
    simp [hk0]

/-- Same statement for attribute-value maps. -/
lemma attrGet_foldl_attrSet_of_notMem (caller : List (String × AttrVal))
    (init : AttrMap) (k : String)
    (h : ∀ v, (k, v) ∉ caller) :
    attrGet (caller.foldl (fun m kv => attrSet m kv.1 kv.2) init) k = attrGet init k := by
  induction caller generalizing init with
  | nil => rfl
  | cons kv rest ih =>
    obtain ⟨k0, v0⟩ := kv
    have hk0 : ¬ k0 = k := by
      intro hh
      exact h v0 (by simp [hh])
    have := ih (attrSet init k0 v0) (fun v hv => h v (List.mem_cons_of_mem _ hv))
    rw [List.foldl_cons, this, attrGet_attrSet]
    simp [hk0]

end Trellis

namespace Trellis

lemma decValAux_append (xs ys : List Char) (acc : Nat) :
    decValAux (xs ++ ys) acc =
      match decValAux xs acc with
      | none => none
      | some a => decValAux ys a := by
  induction xs generalizing acc with
  | nil => simp [decValAux]
  | cons c cs ih =>
    cases h : decDigitVal? c <;> simp [decValAux, h, ih]

lemma decDigitVal?_decDigitChar (n : Nat) (h : n < 10) :
    decDigitVal? (decDigitChar n) = some n := by
  interval_cases n <;> decide

lemma decValAux_natDecCharsAux (f : Nat) :
    ∀ n acc, n < f →
      decValAux (natDecCharsAux f n) acc =
        some (acc * 10 ^ (natDecCharsAux f n).length + n) := by
  induction f with
  | zero => intro n acc h; omega
  | succ f ih =>
    intro n acc h
    by_cases h10 : n < 10
    · simp [natDecCharsAux, h10, decValAux, decDigitVal?_decDigitChar n h10]
    · have hn0 : 0 < n := by omega
      have hf : n / 10 < f := by
        have h1 : n / 10 < n := Nat.div_lt_self hn0 (by omega)
        omega
      have hrec := ih (n / 10) acc hf
      have hmod : n % 10 < 10 := Nat.mod_lt _ (by omega)
      simp only [natDecCharsAux, if_neg h10, decValAux_append, hrec,
        decValAux, decDigitVal?_decDigitChar _ hmod, List.length_append,
        List.length_cons, List.length_nil]
      congr 1
      rw [pow_succ]
      ring_nf
      omega

lemma natDecCharsAux_digit (f : Nat) :
    ∀ n, ∀ c ∈ natDecCharsAux f n, ∃ m, m < 10 ∧ c = decDigitChar m := by
  induction f with
  | zero => intro n c hc; simp [natDecCharsAux] at hc
  | succ f ih =>
    intro n c hc
    by_cases h10 : n < 10
    · simp [natDecCharsAux, h10] at hc
      exact ⟨n, h10, hc⟩
    · simp only [natDecCharsAux, if_neg h10, List.mem_append, List.mem_singleton] at hc
      rcases hc with hc | hc
      · exact ih _ c hc
      · exact ⟨n % 10, Nat.mod_lt _ (by omega), hc⟩

lemma natDecCharsAux_ne_nil (f n : Nat) (h : 0 < f) : natDecCharsAux f n ≠ [] := by
  cases f with
  | zero => omega
  | succ f =>
    by_cases h10 : n < 10 <;> simp [natDecCharsAux, h10]

lemma decDigitChar_ne_dash (m : Nat) (h : m < 10) :
    decDigitChar m ≠ '-' ∧ decDigitChar m ≠ '+' := by
  interval_cases m <;> exact ⟨by decide, by decide⟩

lemma decValAux_natDecChars (n : Nat) : decValAux (natDecChars n) 0 = some n := by
  have := decValAux_natDecCharsAux (n + 1) n 0 (by omega)
  simpa [natDecChars] using this

/-- Reduction of `goParseInt64` on an all-digit rendering. -/
lemma goParseInt64_pos_digits (c : Char) (cs : List Char)
    (h1 : ¬ c = '-') (h2 : ¬ c = '+') (v : Nat) (hv : decValAux (c :: cs) 0 = some v) :
    goParseInt64 (String.mk (c :: cs)) = min 9223372036854775807 (v : Int) := by
  rw [goParseInt64]
  simp [h1, h2, hv]

/-- Reduction of `goParseInt64` on a minus sign followed by digits. -/
lemma goParseInt64_neg_digits (c : Char) (cs : List Char) (v : Nat)
    (hv : decValAux (c :: cs) 0 = some v) :
    goParseInt64 (String.mk ('-' :: c :: cs)) = max (-9223372036854775808) (-(v : Int)) := by
  rw [goParseInt64]
  simp [hv]

lemma natDecChars_digit (n : Nat) :
    ∀ c ∈ natDecChars n, ∃ m, m < 10 ∧ c = decDigitChar m :=
  natDecCharsAux_digit _ _

/-- Parsing a canonical `FormatInt` rendering recovers the value, for every
value the store can write (an `int64`). -/
lemma goParseInt64_intDecRepr (i : Int)
    (hlo : -9223372036854775808 ≤ i) (hhi : i ≤ 9223372036854775807) :
    goParseInt64 (intDecRepr i) = i := by
  by_cases hneg : i < 0
  · have hne : natDecChars (-i).toNat ≠ [] :=
      natDecCharsAux_ne_nil _ _ (by omega)
    cases hds : natDecChars (-i).toNat with
    | nil => exact absurd hds hne
    | cons c cs =>
      have hval : decValAux (c :: cs) 0 = some (-i).toNat := by
        rw [← hds]; exact decValAux_natDecChars _
      have hrepr : intDecRepr i = String.mk ('-' :: c :: cs) := by
        rw [intDecRepr, if_pos hneg, hds]
      rw [hrepr, goParseInt64_neg_digits c cs _ hval]
      omega
  · have hne : natDecChars i.toNat ≠ [] :=
      natDecCharsAux_ne_nil _ _ (by omega)
    cases hds : natDecChars i.toNat with
    | nil => exact absurd hds hne
    | cons c cs =>
      obtain ⟨m, hm, hcm⟩ := natDecChars_digit i.toNat c
        (by rw [hds]; exact List.mem_cons_self _ _)
      obtain ⟨hd1, hd2⟩ := decDigitChar_ne_dash m hm
      have hc1 : ¬ c = '-' := by rw [hcm]; exact hd1
      have hc2 : ¬ c = '+' := by rw [hcm]; exact hd2
      have hval : decValAux (c :: cs) 0 = some i.toNat := by
        rw [← hds]; exact decValAux_natDecChars _
      have hrepr : intDecRepr i = String.mk (c :: cs) := by
        rw [intDecRepr, if_neg hneg, hds]
      rw [hrepr, goParseInt64_pos_digits c cs hc1 hc2 _ hval]
      omega

end Trellis

namespace Trellis

lemma hexDigitChar_mem (n : Nat) (h : n < 16) : hexDigitChar n ∈ hexAlphabet := by
  interval_cases n <;> decide

lemma hexCharsAux_small (f n : Nat) (hf : 0 < f) (hn : n < 16) :
    hexCharsAux f n = [hexDigitChar n] := by
  cases f with
  | zero => omega
  | succ f => simp [hexCharsAux, hn]

/-- For a byte-sized value, `%02x` renders exactly the two nibble digits. -/
lemma goHex02_byte (n : Nat) (h : n < 256) :
    goHex02 n = String.mk [hexDigitChar (n / 16), hexDigitChar (n % 16)] := by
  by_cases h16 : n < 16
  · have hdiv : n / 16 = 0 := Nat.div_eq_of_lt h16
    have : hexChars n = [hexDigitChar n] := hexCharsAux_small _ _ (by omega) h16
    have hmod : n % 16 = n := Nat.mod_eq_of_lt h16
    simp [goHex02, this, hdiv, hmod, hexDigitChar]
  · have hdivlt : n / 16 < 16 := by omega
    have hrec : hexCharsAux (n + 1) (n / 16) = [hexDigitChar (n / 16)] :=
      hexCharsAux_small _ _ (by omega) hdivlt
    have : hexChars n = [hexDigitChar (n / 16), hexDigitChar (n % 16)] := by
      rw [hexChars]
      cases hn : n + 1 with
      | zero => omega
      | succ f =>
        have hf : 0 < f := by omega
        have : hexCharsAux f (n / 16) = [hexDigitChar (n / 16)] :=
          hexCharsAux_small _ _ hf hdivlt
        simp [hexCharsAux, h16, this]
    simp [goHex02, this]

lemma goHex02_byte_length (n : Nat) (h : n < 256) : (goHex02 n).length = 2 := by
  rw [goHex02_byte n h]
  rfl

lemma goHex02_byte_mem (n : Nat) (h : n < 256) :
    ∀ c ∈ (goHex02 n).data, c ∈ hexAlphabet := by
  rw [goHex02_byte n h]
  intro c hc
  have hc2 : c = hexDigitChar (n / 16) ∨ c = hexDigitChar (n % 16) := by
    simpa using hc
  rcases hc2 with hc2 | hc2 <;> subst hc2
  · exact hexDigitChar_mem _ (by omega)
  · exact hexDigitChar_mem _ (Nat.mod_lt _ (by omega))

lemma sha256Bytes_length (msg : List Nat) : (sha256Bytes msg).length = 32 := by
  simp [sha256Bytes, word4]

lemma mem_word4_lt (w b : Nat) (h : b ∈ word4 w) : b < 256 := by
  simp [word4] at h
  rcases h with h | h | h | h <;> subst h <;> exact Nat.mod_lt _ (by omega)

lemma sha256Bytes_lt (msg : List Nat) : ∀ b ∈ sha256Bytes msg, b < 256 := by
  intro b hb
  simp only [sha256Bytes, List.mem_append] at hb
  rcases hb with ((((((hb | hb) | hb) | hb) | hb) | hb) | hb) | hb <;>
    exact mem_word4_lt _ _ hb

lemma hexEncode_data (bs : List Nat) :
    (hexEncode bs).data = bs.foldr (fun b acc => hexByte b ++ acc) [] := rfl

lemma foldr_hexByte_length (bs : List Nat) :
    (bs.foldr (fun b acc => hexByte b ++ acc) []).length = 2 * bs.length := by
  induction bs with
  | nil => rfl
  | cons b rest ih =>
    rw [List.foldr_cons, List.length_append, ih, List.length_cons]
    have h2 : (hexByte b).length = 2 := rfl
    omega

lemma hexEncode_length (bs : List Nat) : (hexEncode bs).length = 2 * bs.length := by
  have h0 : (hexEncode bs).length = (hexEncode bs).data.length := rfl
  rw [h0, hexEncode_data, foldr_hexByte_length]

lemma hexEncode_mem (bs : List Nat) : ∀ c ∈ (hexEncode bs).data, c ∈ hexAlphabet := by
  rw [hexEncode_data]
  induction bs with
  | nil => intro c hc; cases hc
  | cons b rest ih =>
    intro c hc
    simp only [List.foldr_cons, hexByte, List.cons_append, List.nil_append,
      List.mem_cons] at hc
    rcases hc with hc | hc | hc
    · subst hc; exact hexDigitChar_mem _ (Nat.mod_lt _ (by omega))
    · subst hc; exact hexDigitChar_mem _ (Nat.mod_lt _ (by omega))
    · exact ih c hc

end Trellis

namespace Trellis

/-- C7 (counterexample): the `"#"` separator of `UniqueConstraintPK` is not
an unambiguous encoding — the distinct component tuples
`("a#b", "c", "d", "e")` and `("a", "b#c", "d", "e")` join to the same string
`"a#b#c#d#e"` and therefore hash to the same constraint key, refuting the
claim that any two differing 4-tuples yield differing outputs. -/
theorem uniqueConstraintPK_separator_collision :
    UniqueConstraintPK "a#b" "c" "d" "e" = UniqueConstraintPK "a" "b#c" "d" "e" ∧
    (("a#b" : String), ("c" : String)) ≠ (("a" : String), ("b#c" : String)) := by
  constructor
  · have h : uniqueData "a#b" "c" "d" "e" = uniqueData "a" "b#c" "d" "e" := by decide
    rw [UniqueConstraintPK, UniqueConstraintPK, h]
  · decide

/-- C7 (amended): `UniqueConstraintPK` is deterministic, always returns
exactly 32 lowercase hexadecimal characters (the first 16 bytes of the
SHA-256 digest of the `#`-joined components), and its output depends only on
the joined component string — two calls whose joined encodings agree (in
particular, two calls with identical components) yield identical outputs.
Distinctness of outputs for distinct tuples cannot be guaranteed: the
separator is ambiguous for components containing `#` (see the
counterexample), and is otherwise a cryptographic collision-resistance
property, not a theorem. -/
theorem uniqueConstraintPK_deterministic_format (p t f v : String) :
    (UniqueConstraintPK p t f v).length = 32 ∧
    (∀ c ∈ (UniqueConstraintPK p t f v).data, c ∈ hexAlphabet) ∧
    ∀ p2 t2 f2 v2, uniqueData p t f v = uniqueData p2 t2 f2 v2 →
      UniqueConstraintPK p t f v = UniqueConstraintPK p2 t2 f2 v2 := by
  refine ⟨?_, ?_, ?_⟩
  · rw [UniqueConstraintPK, hexEncode_length, List.length_take, sha256Bytes_length]
    norm_num
  · intro c hc
    exact hexEncode_mem _ c hc
  · intro p2 t2 f2 v2 h
    rw [UniqueConstraintPK, UniqueConstraintPK, h]

/-- C7 witness: the format part and the determinism part of the amended
claim, instantiated at a concrete constraint tuple. -/
theorem uniqueConstraintPK_deterministic_format_witness :
    (UniqueConstraintPK "organization#1" "studio" "slug" "acme").length = 32 ∧
    UniqueConstraintPK "organization#1" "studio" "slug" "acme" =
      UniqueConstraintPK "organization#1" "studio" "slug" "acme" :=
  ⟨(uniqueConstraintPK_deterministic_format "organization#1" "studio" "slug" "acme").1,
   (uniqueConstraintPK_deterministic_format "organization#1" "studio" "slug" "acme").2.2
     "organization#1" "studio" "slug" "acme" rfl⟩

/-- C8 (counterexample): for `shardCount = 1000` and `childRef = "c"` the
FNV-1a hash reduces to 458 = 0x1ca, and `%02x` renders three hex digits, so
the result is not of the claimed form `parentRef ++ "#" ++ two hex digits`
(which would have length 4 here). -/
theorem relationshipPK_three_digit_suffix :
    RelationshipPK "p" "c" 1000 = "p#1ca" ∧ (RelationshipPK "p" "c" 1000).length ≠ 4 := by
  constructor
  · decide
  · decide

/-- C8 (amended): `RelationshipPK` is a pure function (hence deterministic
and call-order independent); for `shardCount ≤ 1` (including 0, negatives,
and for all parent/child strings including empty ones) it returns
`parentRef ++ "#00"`; and for `1 < shardCount ≤ 256` — the clamped
configuration range — it returns `parentRef ++ "#"` followed by exactly two
lowercase hex digits rendering the 32-bit FNV-1a hash of `childRef` reduced
modulo `shardCount`.  For `shardCount > 256` the suffix can exceed two
digits (see the counterexample). -/
theorem relationshipPK_sharding (p c : String) (n : Int) :
    (n ≤ 1 → RelationshipPK p c n = p ++ "#00") ∧
    (1 < n → n ≤ 256 →
      RelationshipPK p c n = p ++ "#" ++ goHex02 (fnv1a32 (strBytes c) % n.toNat) ∧
      (goHex02 (fnv1a32 (strBytes c) % n.toNat)).length = 2 ∧
      ∀ ch ∈ (goHex02 (fnv1a32 (strBytes c) % n.toNat)).data, ch ∈ hexAlphabet) := by
  constructor
  · intro h
    rw [RelationshipPK, if_pos h]
  · intro h1 h256
    have hpos : 2 ≤ n.toNat := by omega
    have hle : n.toNat ≤ 256 := by omega
    have hmod32 : n.toNat % 4294967296 = n.toNat := Nat.mod_eq_of_lt (by omega)
    have hshard : fnv1a32 (strBytes c) % n.toNat < 256 :=
      lt_of_lt_of_le (Nat.mod_lt _ (by omega)) hle
    refine ⟨?_, goHex02_byte_length _ hshard, goHex02_byte_mem _ hshard⟩
    rw [RelationshipPK, if_neg (by omega), hmod32]

/-- C8 witness: both branches of the amended claim at concrete inputs. -/
theorem relationshipPK_sharding_witness :
    RelationshipPK "organization#1" "studio#1" 1 = "organization#1" ++ "#00" ∧
    RelationshipPK "organization#1" "studio#1" 16 =
      "organization#1" ++ "#" ++
        goHex02 (fnv1a32 (strBytes "studio#1") % (16 : Int).toNat) :=
  ⟨(relationshipPK_sharding "organization#1" "studio#1" 1).1 (by decide),
   ((relationshipPK_sharding "organization#1" "studio#1" 16).2 (by decide) (by decide)).1⟩

end Trellis

namespace Trellis

lemma firstCCFIdx_lt (reasons : List (Option String)) (i : Nat)
    (h : firstCCFIdx reasons = some i) : i < reasons.length := by
  induction reasons generalizing i with
  | nil => cases h
  | cons r rest ih =>
    rw [firstCCFIdx] at h
    by_cases hr : r = some "ConditionalCheckFailed"
    · rw [if_pos hr] at h
      injection h with h
      subst h
      simp
    · rw [if_neg hr] at h
      cases hrec : firstCCFIdx rest with
      | none => rw [hrec] at h; cases h
      | some j =>
        rw [hrec] at h
        simp at h
        have := ih j hrec
        simp only [List.length_cons]
        omega

/-- The transaction item list of Create, with the appends reassociated
around the entity put. -/
lemma createTxRoles_eq (hpc : Bool) (pks : List String) (hpr : Bool) :
    createTxRoles hpc pks hpr =
      (if hpc then [CreateTxRole.parentCheck] else []) ++
      (pks.map CreateTxRole.constraintPut ++ CreateTxRole.entityPut ::
        (if hpr then [CreateTxRole.relationshipPut] else [])) := by
  rw [createTxRoles]
  simp [List.append_assoc]

lemma mid_getElem?_entity (pks : List String) (tail : List CreateTxRole) :
    (pks.map CreateTxRole.constraintPut ++ CreateTxRole.entityPut :: tail)[pks.length]? =
      some CreateTxRole.entityPut := by
  rw [List.getElem?_append_right (by simp)]
  simp

lemma mid_getElem? (pks : List String) (tail : List CreateTxRole) (i : Nat)
    (r : CreateTxRole)
    (h : (pks.map CreateTxRole.constraintPut ++ CreateTxRole.entityPut :: tail)[i]? = some r) :
    (i < pks.length ∧ ∃ pk, r = .constraintPut pk) ∨
    (i = pks.length ∧ r = .entityPut) ∨
    (pks.length < i ∧ tail[i - pks.length - 1]? = some r) := by
  induction pks generalizing i with
  | nil =>
    simp only [List.map_nil, List.nil_append, List.length_nil] at h ⊢
    cases i with
    | zero =>
      simp at h
      exact Or.inr (Or.inl ⟨rfl, h.symm⟩)
    | succ j =>
      refine Or.inr (Or.inr ⟨by omega, ?_⟩)
      simpa using h
  | cons pk pks ih =>
    simp only [List.length_cons]
    cases i with
    | zero =>
      simp at h
      exact Or.inl ⟨by omega, pk, h.symm⟩
    | succ j =>
      simp only [List.map_cons, List.cons_append, List.getElem?_cons_succ] at h
      rcases ih j h with ⟨h1, h2⟩ | ⟨h1, h2⟩ | ⟨h1, h2⟩
      · exact Or.inl ⟨by omega, h2⟩
      · exact Or.inr (Or.inl ⟨by omega, h2⟩)
      · refine Or.inr (Or.inr ⟨by omega, ?_⟩)
        rw [← h2]
        congr 1
        omega

/-- C1: for every Create whose bounded transaction is rejected, the returned
error is positionally determined by the first conditional-check-failed item:
the parent-check index maps to `ErrParentNotFound`, the entity-put index to
`ErrAlreadyExists`, any other index to `ErrDuplicateValue`; a cancelled
transaction without a conditional-check failure and any non-cancellation
backing-store error are returned unmodified.  Moreover the tracked indices
really are the parent check and the entity put in the transaction Create
builds, and every other condition-carrying item of that transaction is a
uniqueness-reservation put. -/
theorem create_error_classification (hpc hpr : Bool) (pks : List String)
    (reasons : List (Option String)) :
    (∀ i, firstCCFIdx reasons = some i →
      mapCreateTransactionError (some (.txCanceled reasons))
          (createParentCheckIndex hpc) (createEntityPutIndex hpc pks) =
        some (if (i : Int) = createParentCheckIndex hpc then .parentNotFound
              else if (i : Int) = createEntityPutIndex hpc pks then .alreadyExists
              else .duplicateValue)) ∧
    (firstCCFIdx reasons = none →
      mapCreateTransactionError (some (.txCanceled reasons))
          (createParentCheckIndex hpc) (createEntityPutIndex hpc pks) =
        some (.txCanceled reasons)) ∧
    (∀ e : GoErr, (∀ rs, e ≠ .txCanceled rs) →
      mapCreateTransactionError (some e)
          (createParentCheckIndex hpc) (createEntityPutIndex hpc pks) = some e) ∧
    (hpc = true → (createTxRoles hpc pks hpr)[0]? = some .parentCheck) ∧
    ((createTxRoles hpc pks hpr)[((if hpc then 1 else 0) + pks.length : Nat)]? =
      some .entityPut) ∧
    (∀ (i : Nat) (r : CreateTxRole),
      (createTxRoles hpc pks hpr)[i]? = some r → roleHasCondition r = true →
      (i : Int) ≠ createParentCheckIndex hpc →
      (i : Int) ≠ createEntityPutIndex hpc pks →
      ∃ pk, r = .constraintPut pk) := by
  refine ⟨?_, ?_, ?_, ?_, ?_, ?_⟩
  · intro i h
    simp only [mapCreateTransactionError, h]
    split_ifs <;> rfl
  · intro h
    simp [mapCreateTransactionError, h]
  · intro e he
    cases e <;> first
      | rfl
      | exact absurd rfl (he _)
  · intro h
    subst h
    simp [createTxRoles]
  · rw [createTxRoles_eq]
    cases hpc with
    | false =>
      simp only [Bool.false_eq_true, if_false, List.nil_append, Nat.zero_add]
      exact mid_getElem?_entity pks _
    | true =>
      simp only [if_true, List.singleton_append]
      have h1 : 1 + pks.length = pks.length + 1 := by omega
      rw [h1, List.getElem?_cons_succ]
      exact mid_getElem?_entity pks _
  · intro i r hget hcondn hne_pci hne_epi
    rw [createTxRoles_eq] at hget
    cases hpc with
    | false =>
      simp only [Bool.false_eq_true, if_false, List.nil_append] at hget
      rcases mid_getElem? pks _ i r hget with ⟨h1, h2⟩ | ⟨h1, h2⟩ | ⟨h1, h2⟩
      · exact h2
      · exfalso
        apply hne_epi
        simp [createEntityPutIndex, h1]
      · exfalso
        cases hpr with
        | false => simp at h2
        | true =>
          rcases Nat.eq_zero_or_pos (i - pks.length - 1) with h0 | h0
          · rw [if_pos rfl, h0] at h2
            simp at h2
            rw [← h2] at hcondn
            simp [roleHasCondition] at hcondn
          · rw [if_pos rfl, List.getElem?_eq_none (by simp; omega)] at h2
            cases h2
    | true =>
      simp only [if_true, List.singleton_append] at hget
      cases i with
      | zero =>
        exfalso
        apply hne_pci
        simp [createParentCheckIndex]
      | succ j =>
        rw [List.getElem?_cons_succ] at hget
        rcases mid_getElem? pks _ j r hget with ⟨h1, h2⟩ | ⟨h1, h2⟩ | ⟨h1, h2⟩
        · exact h2
        · exfalso
          apply hne_epi
          simp only [createEntityPutIndex, if_pos rfl, h1]
          push_cast
          omega
        · exfalso
          cases hpr with
          | false => simp at h2
          | true =>
            rcases Nat.eq_zero_or_pos (j - pks.length - 1) with h0 | h0
            · rw [if_pos rfl, h0] at h2
              simp at h2
              rw [← h2] at hcondn
              simp [roleHasCondition] at hcondn
            · rw [if_pos rfl, List.getElem?_eq_none (by simp; omega)] at h2
              cases h2

/-- C1 witness: in a Create transaction of parent check, one constraint
reservation, entity put and relationship put, a conditional-check failure at
index 1 (the constraint reservation) maps to `ErrDuplicateValue`. -/
theorem create_error_classification_witness :
    mapCreateTransactionError
      (some (.txCanceled [some "None", some "ConditionalCheckFailed", some "None", some "None"]))
      (createParentCheckIndex true) (createEntityPutIndex true ["k1"]) =
      some .duplicateValue := by
  have h := (create_error_classification true true ["k1"]
    [some "None", some "ConditionalCheckFailed", some "None", some "None"]).1 1 (by decide)
  rw [h]
  decide

end Trellis

namespace Trellis

lemma applyActions_append (m : AttrMap) (as bs : List SetAction) :
    applyActions m (as ++ bs) = applyActions (applyActions m as) bs :=
  List.foldl_append _ _ _ _

lemma attrGet_applyActions_assigns (kvs : List (String × AttrVal)) (m : AttrMap)
    (k : String) (hk : ∀ kv ∈ kvs, kv.1 ≠ k) :
    attrGet (applyActions m (kvs.map fun kv => .assign kv.1 kv.2)) k = attrGet m k := by
  induction kvs generalizing m with
  | nil => rfl
  | cons kv rest ih =>
    have hne : ¬ kv.1 = k := hk kv (List.mem_cons_self _ _)
    rw [List.map_cons]
    show attrGet (applyActions (applyAction m (.assign kv.1 kv.2))
      (rest.map fun kv => .assign kv.1 kv.2)) k = attrGet m k
    rw [ih _ (fun kv2 h2 => hk kv2 (List.mem_cons_of_mem _ h2))]
    show attrGet (attrSet m kv.1 kv.2) k = attrGet m k
    rw [attrGet_attrSet]
    simp [hne]

/-- Caller attributes surviving the managed-key filter never assign a
managed key. -/
lemma filtered_caller_ne (callerItem : AttrMap) (k : String) (hk : isManagedKey k = true) :
    ∀ kv ∈ callerItem.filter fun kv => !isManagedKey kv.1, kv.1 ≠ k := by
  intro kv hkv heq
  have hmem := List.of_mem_filter hkv
  simp [heq, hk] at hmem

/-- The managed attributes after the filtered caller assignments are those of
the stored item. -/
lemma attrGet_after_caller (stored callerItem : AttrMap) (k : String)
    (hk : isManagedKey k = true) :
    attrGet (applyActions stored
      ((callerItem.filter fun kv => !isManagedKey kv.1).map fun kv => .assign kv.1 kv.2)) k =
      attrGet stored k :=
  attrGet_applyActions_assigns _ _ _ (filtered_caller_ne callerItem k hk)

end Trellis

namespace Trellis

lemma attrGet_simple_result (stored callerItem : AttrMap) (nowISO : String) (v : Int)
    (hv : attrGet stored "version" = some (.n v)) (k : String)
    (hk : isManagedKey k = true) :
    attrGet (applyActions stored (simpleSetActions callerItem nowISO)) k =
      if k = "version" then some (.n (v + 1))
      else if k = "updated_at" then some (.s nowISO)
      else attrGet stored k := by
  have hver : attrGet (attrSet (applyActions stored
      ((callerItem.filter fun kv => !isManagedKey kv.1).map fun kv =>
        SetAction.assign kv.1 kv.2)) "updated_at" (AttrVal.s nowISO)) "version" =
      some (.n v) := by
    rw [attrGet_attrSet, if_neg (by decide),
      attrGet_after_caller stored callerItem "version" (by decide), hv]
  have hstep : applyActions stored (simpleSetActions callerItem nowISO) =
      attrSet (attrSet (applyActions stored
        ((callerItem.filter fun kv => !isManagedKey kv.1).map fun kv =>
          SetAction.assign kv.1 kv.2)) "updated_at" (AttrVal.s nowISO))
        "version" (AttrVal.n (v + 1)) := by
    rw [simpleSetActions, applyActions_append, applyActions, List.foldl_cons,
      List.foldl_cons, List.foldl_nil]
    simp only [applyAction, hver]
  rw [hstep, attrGet_attrSet, attrGet_attrSet]
  by_cases h1 : k = "version"
  · subst h1
    rw [if_pos rfl, if_pos rfl]
  · have hh1 : ¬ "version" = k := fun h => h1 h.symm
    by_cases h2 : k = "updated_at"
    · subst h2
      rw [if_neg hh1, if_pos rfl, if_neg (by decide), if_pos rfl]
    · have hh2 : ¬ "updated_at" = k := fun h => h2 h.symm
      rw [if_neg hh1, if_neg hh2, if_neg h1, if_neg h2]
      exact attrGet_after_caller stored callerItem k hk

lemma attrGet_unique_result (stored callerItem : AttrMap) (nowISO : String)
    (newPKs : List String) (v : Int)
    (hv : attrGet stored "version" = some (.n v)) (k : String)
    (hk : isManagedKey k = true) :
    attrGet (applyActions stored (uniqueSetActions callerItem nowISO newPKs)) k =
      if k = "_unique_pks" then some (.l newPKs)
      else if k = "version" then some (.n (v + 1))
      else if k = "updated_at" then some (.s nowISO)
      else attrGet stored k := by
  have hver : attrGet (attrSet (applyActions stored
      ((callerItem.filter fun kv => !isManagedKey kv.1).map fun kv =>
        SetAction.assign kv.1 kv.2)) "updated_at" (AttrVal.s nowISO)) "version" =
      some (.n v) := by
    rw [attrGet_attrSet, if_neg (by decide),
      attrGet_after_caller stored callerItem "version" (by decide), hv]
  have hstep : applyActions stored (uniqueSetActions callerItem nowISO newPKs) =
      attrSet (attrSet (attrSet (applyActions stored
        ((callerItem.filter fun kv => !isManagedKey kv.1).map fun kv =>
          SetAction.assign kv.1 kv.2)) "updated_at" (AttrVal.s nowISO))
        "version" (AttrVal.n (v + 1))) "_unique_pks" (AttrVal.l newPKs) := by
    rw [uniqueSetActions, applyActions_append, applyActions, List.foldl_cons,
      List.foldl_cons, List.foldl_cons, List.foldl_nil]
    simp only [applyAction, hver]
  rw [hstep, attrGet_attrSet, attrGet_attrSet, attrGet_attrSet]
  by_cases h0 : k = "_unique_pks"
  · subst h0
    rw [if_pos rfl, if_pos rfl]
  · have hh0 : ¬ "_unique_pks" = k := fun h => h0 h.symm
    by_cases h1 : k = "version"
    · subst h1
      rw [if_neg hh0, if_pos rfl, if_neg (by decide), if_pos rfl]
    · have hh1 : ¬ "version" = k := fun h => h1 h.symm
      by_cases h2 : k = "updated_at"
      · subst h2
        rw [if_neg hh0, if_neg hh1, if_pos rfl, if_neg (by decide),
          if_neg (by decide), if_pos rfl]
      · have hh2 : ¬ "updated_at" = k := fun h => h2 h.symm
        rw [if_neg hh0, if_neg hh1, if_neg hh2, if_neg h0, if_neg h1, if_neg h2]
        exact attrGet_after_caller stored callerItem k hk

end Trellis

namespace Trellis

/-- C10: on both update paths, caller-supplied entries under the managed keys
(`id`, `entity_ref`, `parent_ref`, `version`, `created_at`, `updated_at`,
`ttl`, `_unique_pks`) are ignored: every managed attribute other than
`version`/`updated_at` (and, on the unique path, `_unique_pks`) keeps its
stored value, `version` becomes exactly `v + 1`, `updated_at` becomes the
call timestamp, and on the unique path `_unique_pks` becomes the freshly
computed constraint-key list — all regardless of the caller item.  The last
conjunct ties the simple-path operation to this application. -/
theorem update_ignores_managed_fields (stored callerItem : AttrMap) (nowISO : String)
    (v : Int) (newPKs : List String)
    (hv : attrGet stored "version" = some (.n v)) :
    (∀ k, isManagedKey k = true → k ≠ "version" → k ≠ "updated_at" →
      attrGet (applyActions stored (simpleSetActions callerItem nowISO)) k =
        attrGet stored k) ∧
    attrGet (applyActions stored (simpleSetActions callerItem nowISO)) "version" =
      some (.n (v + 1)) ∧
    attrGet (applyActions stored (simpleSetActions callerItem nowISO)) "updated_at" =
      some (.s nowISO) ∧
    (∀ k, isManagedKey k = true → k ≠ "version" → k ≠ "updated_at" → k ≠ "_unique_pks" →
      attrGet (applyActions stored (uniqueSetActions callerItem nowISO newPKs)) k =
        attrGet stored k) ∧
    attrGet (applyActions stored (uniqueSetActions callerItem nowISO newPKs)) "version" =
      some (.n (v + 1)) ∧
    attrGet (applyActions stored (uniqueSetActions callerItem nowISO newPKs)) "updated_at" =
      some (.s nowISO) ∧
    attrGet (applyActions stored (uniqueSetActions callerItem nowISO newPKs)) "_unique_pks" =
      some (.l newPKs) ∧
    (∀ ev, versionTTLGuard stored ev = true →
      updateSimpleOp (some stored) callerItem ev nowISO =
        .ok (some (applyActions stored (simpleSetActions callerItem nowISO)))) := by
  refine ⟨?_, ?_, ?_, ?_, ?_, ?_, ?_, ?_⟩
  · intro k hk h1 h2
    rw [attrGet_simple_result stored callerItem nowISO v hv k hk, if_neg h1, if_neg h2]
  · rw [attrGet_simple_result stored callerItem nowISO v hv "version" (by decide),
      if_pos rfl]
  · rw [attrGet_simple_result stored callerItem nowISO v hv "updated_at" (by decide),
      if_neg (by decide), if_pos rfl]
  · intro k hk h1 h2 h3
    rw [attrGet_unique_result stored callerItem nowISO newPKs v hv k hk,
      if_neg h3, if_neg h1, if_neg h2]
  · rw [attrGet_unique_result stored callerItem nowISO newPKs v hv "version" (by decide),
      if_neg (by decide), if_pos rfl]
  · rw [attrGet_unique_result stored callerItem nowISO newPKs v hv "updated_at" (by decide),
      if_neg (by decide), if_neg (by decide), if_pos rfl]
  · rw [attrGet_unique_result stored callerItem nowISO newPKs v hv "_unique_pks" (by decide),
      if_pos rfl]
  · intro ev hguard
    rw [updateSimpleOp, if_pos hguard]

/-- C10 witness: a caller item smuggling `id` and `version` entries leaves
the stored `id` intact and still bumps `version` from 3 to 4. -/
theorem update_ignores_managed_fields_witness :
    attrGet (applyActions [("id", AttrVal.s "e1"), ("version", AttrVal.n 3)]
      (simpleSetActions
        [("id", AttrVal.s "HACK"), ("version", AttrVal.n 99), ("name", AttrVal.s "x")]
        "2026-01-01T00:00:00Z")) "id" = some (AttrVal.s "e1") ∧
    attrGet (applyActions [("id", AttrVal.s "e1"), ("version", AttrVal.n 3)]
      (simpleSetActions
        [("id", AttrVal.s "HACK"), ("version", AttrVal.n 99), ("name", AttrVal.s "x")]
        "2026-01-01T00:00:00Z")) "version" = some (AttrVal.n 4) := by
  have h := update_ignores_managed_fields
    [("id", AttrVal.s "e1"), ("version", AttrVal.n 3)]
    [("id", AttrVal.s "HACK"), ("version", AttrVal.n 99), ("name", AttrVal.s "x")]
    "2026-01-01T00:00:00Z" 3 ["p1"] (by decide)
  constructor
  · rw [h.1 "id" (by decide) (by decide) (by decide)]
    decide
  · have h2 := h.2.1
    norm_num at h2
    exact h2

lemma mapUpdate_any_ccf (reasons : List (Option String))
    (h : reasons.any (· = some "ConditionalCheckFailed") = true) :
    mapUpdateTransactionError (some (.txCanceled reasons)) = some .duplicateValue := by
  simp [mapUpdateTransactionError, h]

end Trellis

namespace Trellis

/-- C2: optimistic-lock conflicts are reported differently per update path.
On the simple path (no unique fields, no parent checker, or empty parent
reference) the single conditional update fails — for any reason the guard can
fail, version mismatch and TTL alike — with `ErrConcurrentModification`.
When the unique path is selected but no unique field changed, Update falls
back to the simple update.  When at least one unique field changed, every
conditional-check failure of the transaction is reported as
`ErrDuplicateValue`: both a failing version/TTL guard on the entity item and
a colliding constraint reservation. -/
theorem update_conflict_classification
    (ent : UEntity) (stored : Option AttrMap) (uniqueTablePKs : List String)
    (callerItem : AttrMap) (ev : Int) (now : Int) (nowISO : String) :
    (uniquePathSelected ent = false →
      UpdateOp ent stored uniqueTablePKs callerItem ev now nowISO =
        match stored with
        | none => .error .concurrentModification
        | some item =>
          if versionTTLGuard item ev then
            .ok (some (applyActions item (simpleSetActions callerItem nowISO)))
          else .error .concurrentModification) ∧
    (∀ current, uniquePathSelected ent = true →
      getOp stored now = .ok current →
      changedUniqueFields current ent.uniqueFields = [] →
      UpdateOp ent stored uniqueTablePKs callerItem ev now nowISO =
        updateSimpleOp (some current) callerItem ev nowISO) ∧
    (∀ current, uniquePathSelected ent = true →
      getOp stored now = .ok current →
      changedUniqueFields current ent.uniqueFields ≠ [] →
      versionTTLGuard current ev = false →
      UpdateOp ent stored uniqueTablePKs callerItem ev now nowISO =
        .error .duplicateValue) ∧
    (∀ current fv, uniquePathSelected ent = true →
      getOp stored now = .ok current →
      fv ∈ changedUniqueFields current ent.uniqueFields →
      uniqueTablePKs.contains
        (UniqueConstraintPK ent.parentRef ent.entityType fv.1 fv.2) = true →
      UpdateOp ent stored uniqueTablePKs callerItem ev now nowISO =
        .error .duplicateValue) := by
  refine ⟨?_, ?_, ?_, ?_⟩
  · intro h
    simp only [UpdateOp, h, Bool.false_eq_true, if_false]
    cases stored <;> rfl
  · intro current h hget hch
    simp only [UpdateOp, h, if_true, hget, updateUniqueAfterGet, hch, List.isEmpty_nil,
      if_pos]
  · intro current h hget hch hguard
    have hchF : (changedUniqueFields current ent.uniqueFields).isEmpty = false := by
      cases hc : changedUniqueFields current ent.uniqueFields with
      | nil => exact absurd hc hch
      | cons a l => rfl
    have hany : ((changedUniqueFields current ent.uniqueFields).map (fun fv =>
        if uniqueTablePKs.contains
          (UniqueConstraintPK ent.parentRef ent.entityType fv.1 fv.2) = true
        then some "ConditionalCheckFailed" else some "None") ++
        [some "ConditionalCheckFailed"]).any
        (· = some "ConditionalCheckFailed") = true := by
      rw [List.any_append]
      simp
    simp only [UpdateOp, h, if_true, hget, updateUniqueAfterGet, hchF, Bool.false_eq_true,
      if_false, hguard, Bool.and_false]
    rw [mapUpdate_any_ccf _ hany]
    rfl
  · intro current fv h hget hfv hcont
    have hchF : (changedUniqueFields current ent.uniqueFields).isEmpty = false := by
      cases hc : changedUniqueFields current ent.uniqueFields with
      | nil => rw [hc] at hfv; cases hfv
      | cons a l => rfl
    have hputs : ((changedUniqueFields current ent.uniqueFields).all fun fv =>
        !uniqueTablePKs.contains
          (UniqueConstraintPK ent.parentRef ent.entityType fv.1 fv.2)) = false := by
      cases hAll : (changedUniqueFields current ent.uniqueFields).all fun fv =>
          !uniqueTablePKs.contains
            (UniqueConstraintPK ent.parentRef ent.entityType fv.1 fv.2) with
      | false => rfl
      | true =>
        exfalso
        have := List.all_eq_true.mp hAll fv hfv
        rw [hcont] at this
        cases this
    have h1 : ((changedUniqueFields current ent.uniqueFields).map (fun fv =>
        if uniqueTablePKs.contains
          (UniqueConstraintPK ent.parentRef ent.entityType fv.1 fv.2) = true
        then some "ConditionalCheckFailed" else some "None")).any
        (· = some "ConditionalCheckFailed") = true := by
      rw [List.any_eq_true]
      refine ⟨some "ConditionalCheckFailed", List.mem_map.mpr ⟨fv, hfv, ?_⟩, by simp⟩
      rw [hcont]
      rfl
    have hany : ((changedUniqueFields current ent.uniqueFields).map (fun fv =>
        if uniqueTablePKs.contains
          (UniqueConstraintPK ent.parentRef ent.entityType fv.1 fv.2) = true
        then some "ConditionalCheckFailed" else some "None") ++
        [if versionTTLGuard current ev = true then some "None"
         else some "ConditionalCheckFailed"]).any
        (· = some "ConditionalCheckFailed") = true := by
      rw [List.any_append, h1]
      rfl
    simp only [UpdateOp, h, if_true, hget, updateUniqueAfterGet, hchF, Bool.false_eq_true,
      if_false, hputs, Bool.false_and]
    rw [mapUpdate_any_ccf _ hany]
    rfl

/-- C2 witness: on the unique path with one changed unique field and a stale
expected version, Update reports `ErrDuplicateValue` even though the failing
condition is the version guard. -/
theorem update_conflict_classification_witness :
    UpdateOp ⟨true, [("slug", "new")], true, "organization#1", "studio"⟩
      (some [("version", AttrVal.n 1), ("slug", AttrVal.s "old")]) [] [] 99 100 "T" =
      .error .duplicateValue :=
  (update_conflict_classification
      ⟨true, [("slug", "new")], true, "organization#1", "studio"⟩
      (some [("version", AttrVal.n 1), ("slug", AttrVal.s "old")]) [] [] 99 100 "T").2.2.1
    [("version", AttrVal.n 1), ("slug", AttrVal.s "old")]
    (by decide) (by rfl) (by decide) (by decide)

end Trellis

namespace Trellis

/-- C4: SetTTL is idempotent.  On an entity without a `ttl` attribute the
conditional update sets `ttl` to the call time and increments `version` by
one, touching nothing else; any later SetTTL returns success (the
conditional-check failure is swallowed) and leaves the state — in particular
the first call's `ttl` timestamp — untouched, and so does Delete once its
orphan probe is passed. -/
theorem setTTL_idempotent (m : AttrMap) (v t1 t2 : Int)
    (httl : attrGet m "ttl" = none) (hv : attrGet m "version" = some (.n v)) :
    ∃ m1, SetTTLOp (some m) t1 = (.ok (), some m1) ∧
      attrGet m1 "ttl" = some (.n t1) ∧
      attrGet m1 "version" = some (.n (v + 1)) ∧
      (∀ k, k ≠ "ttl" → k ≠ "version" → attrGet m1 k = attrGet m k) ∧
      SetTTLOp (some m1) t2 = (.ok (), some m1) ∧
      ∀ opts : DeleteOptions, DeleteOp (.ok false) opts (some m1) t2 = (.ok (), some m1) := by
  have hverAfter : attrGet (attrSet m "ttl" (AttrVal.n t1)) "version" = some (.n v) := by
    rw [attrGet_attrSet, if_neg (by decide), hv]
  have happ : applyActions m [SetAction.assign "ttl" (AttrVal.n t1), SetAction.incrVersion] =
      attrSet (attrSet m "ttl" (AttrVal.n t1)) "version" (AttrVal.n (v + 1)) := by
    rw [applyActions, List.foldl_cons, List.foldl_cons, List.foldl_nil]
    simp only [applyAction, hverAfter]
  refine ⟨attrSet (attrSet m "ttl" (AttrVal.n t1)) "version" (AttrVal.n (v + 1)),
    ?_, ?_, ?_, ?_, ?_, ?_⟩
  · rw [SetTTLOp, setTTLRaw, if_pos (by rw [httl]; rfl), happ]
  · rw [attrGet_attrSet, if_neg (by decide), attrGet_attrSet, if_pos rfl]
  · rw [attrGet_attrSet, if_pos rfl]
  · intro k hk1 hk2
    have h1 : ¬ "version" = k := fun h => hk2 h.symm
    have h2 : ¬ "ttl" = k := fun h => hk1 h.symm
    rw [attrGet_attrSet, if_neg h1, attrGet_attrSet, if_neg h2]
  · have httl1 : attrGet (attrSet (attrSet m "ttl" (AttrVal.n t1)) "version"
        (AttrVal.n (v + 1))) "ttl" = some (.n t1) := by
      rw [attrGet_attrSet, if_neg (by decide), attrGet_attrSet, if_pos rfl]
    rw [SetTTLOp, setTTLRaw, if_neg (by rw [httl1]; simp)]
  · intro opts
    have httl1 : attrGet (attrSet (attrSet m "ttl" (AttrVal.n t1)) "version"
        (AttrVal.n (v + 1))) "ttl" = some (.n t1) := by
      rw [attrGet_attrSet, if_neg (by decide), attrGet_attrSet, if_pos rfl]
    have hset : SetTTLOp (some (attrSet (attrSet m "ttl" (AttrVal.n t1)) "version"
        (AttrVal.n (v + 1)))) t2 = (.ok (), some (attrSet (attrSet m "ttl" (AttrVal.n t1))
        "version" (AttrVal.n (v + 1)))) := by
      rw [SetTTLOp, setTTLRaw, if_neg (by rw [httl1]; simp)]
    rw [DeleteOp]
    by_cases hopts : opts.orphanProtect && !opts.cascade
    · rw [if_pos hopts]
      exact hset
    · rw [if_neg hopts]
      exact hset

/-- C4 witness: a fresh item (version 1, no TTL) tombstoned at time 10 and
again at time 20. -/
theorem setTTL_idempotent_witness :
    ∃ m1, SetTTLOp (some [("version", AttrVal.n 1)]) 10 = (.ok (), some m1) ∧
      attrGet m1 "ttl" = some (.n 10) ∧
      attrGet m1 "version" = some (.n 2) ∧
      (∀ k, k ≠ "ttl" → k ≠ "version" →
        attrGet m1 k = attrGet [("version", AttrVal.n 1)] k) ∧
      SetTTLOp (some m1) 20 = (.ok (), some m1) ∧
      ∀ opts : DeleteOptions, DeleteOp (.ok false) opts (some m1) 20 = (.ok (), some m1) :=
  setTTL_idempotent [("version", AttrVal.n 1)] 1 10 20 (by decide) (by decide)

end Trellis

namespace Trellis

/-- Well-formedness of a stream image's `ttl` attribute: it is absent, or it
is a number attribute holding the canonical decimal rendering of an `int64`
value — exactly what the store's `strconv.FormatInt` writes. -/
def wfTTL (img : StreamImage) (t : Option Int) : Prop :=
  match t with
  | none => imgGet img "ttl" = none
  | some n => imgGet img "ttl" = some (.num (intDecRepr n)) ∧
      -9223372036854775808 ≤ n ∧ n ≤ 9223372036854775807

lemma getNumberAttr_wf (img : StreamImage) (t : Option Int) (h : wfTTL img t) :
    getNumberAttr img "ttl" = t.getD 0 := by
  cases t with
  | none =>
    rw [wfTTL] at h
    simp [getNumberAttr, h]
  | some n =>
    obtain ⟨himg, hlo, hhi⟩ := h
    simp [getNumberAttr, himg, goParseInt64_intDecRepr n hlo hhi]

/-- C3: the cascade handler propagates a change record iff the event type is
`"MODIFY"`, the pre-image's `ttl` is absent or zero, and the post-image's
`ttl` is present and non-zero; every other record is acknowledged as success
with no side effects (an empty effect trace). -/
theorem cascade_propagation_condition (env : CascadeEnv) (r : StreamRecord)
    (tOld tNew : Option Int)
    (hOld : wfTTL r.oldImage tOld) (hNew : wfTTL r.newImage tNew) :
    processRecord env r = ([], .ok ()) ↔
      ¬(r.eventName = "MODIFY" ∧ (tOld = none ∨ tOld = some 0) ∧
        ∃ n, tNew = some n ∧ n ≠ 0) := by
  have hOldVal : getNumberAttr r.oldImage "ttl" = tOld.getD 0 := getNumberAttr_wf _ _ hOld
  have hNewVal : getNumberAttr r.newImage "ttl" = tNew.getD 0 := getNumberAttr_wf _ _ hNew
  constructor
  · intro hres hcond
    obtain ⟨hEv, hOldZ, n, hNewN, hnz⟩ := hcond
    have hOld0 : getNumberAttr r.oldImage "ttl" = 0 := by
      rw [hOldVal]
      rcases hOldZ with h | h <;> simp [h]
    have hNewNZ : ¬ getNumberAttr r.newImage "ttl" = 0 := by
      rw [hNewVal, hNewN]
      simpa using hnz
    rw [processRecord, if_neg (by simp [hEv])] at hres
    simp only [hOld0, hNewNZ] at hres
    rw [if_neg (by simp [hNewNZ])] at hres
    cases hq : env.queryAllChildren with
    | error e =>
      rw [hq] at hres
      have := congrArg Prod.fst hres
      simp at this
    | ok children =>
      rw [hq] at hres
      have := congrArg Prod.fst hres
      simp at this
  · intro hncond
    rw [processRecord]
    by_cases hEv : r.eventName = "MODIFY"
    · rw [if_neg (by simp [hEv])]
      have hdisj : ¬ getNumberAttr r.oldImage "ttl" = 0 ∨
          getNumberAttr r.newImage "ttl" = 0 := by
        by_contra hc
        push_neg at hc
        obtain ⟨ho, hn⟩ := hc
        apply hncond
        refine ⟨hEv, ?_, ?_⟩
        · rw [hOldVal] at ho
          cases tOld with
          | none => exact Or.inl rfl
          | some x =>
            right
            simp at ho
            rw [ho]
        · rw [hNewVal] at hn
          cases tNew with
          | none => exact absurd rfl hn
          | some x =>
            exact ⟨x, rfl, by simpa using hn⟩
      rw [if_pos hdisj]
    · rw [if_pos (by simp [hEv])]

/-- C3 witness: a `"MODIFY"` record whose `ttl` goes from absent to `"5"`
propagates (its trace is not empty), applied through the propagation
condition. -/
theorem cascade_propagation_condition_witness :
    processRecord
      ⟨.ok [], fun _ => .ok (), .ok (), fun _ => .ok ()⟩
      ⟨"MODIFY", [], [("ttl", StreamAttr.num "5")]⟩ ≠ ([], .ok ()) := fun h =>
  ((cascade_propagation_condition
      ⟨.ok [], fun _ => .ok (), .ok (), fun _ => .ok ()⟩
      ⟨"MODIFY", [], [("ttl", StreamAttr.num "5")]⟩ none (some 5)
      (by rfl) (by exact ⟨by rfl, by decide, by decide⟩)).mp h)
    ⟨rfl, Or.inl rfl, 5, rfl, by decide⟩

end Trellis

namespace Trellis

/-- C6 (amended): one cascade invocation fails — causing redelivery — exactly
when it propagates and the children read fails; failures of the per-child
TTL writes, of the entity's own relationship-edge tombstone, and of the
unique-constraint tombstones are logged and skipped, never surfaced. -/
theorem cascade_error_surfacing (env : CascadeEnv) (r : StreamRecord) (e : GoErr) :
    (processRecord env r).2 = .error e ↔
      (r.eventName = "MODIFY" ∧ getNumberAttr r.oldImage "ttl" = 0 ∧
       getNumberAttr r.newImage "ttl" ≠ 0 ∧ env.queryAllChildren = .error e) := by
  constructor
  · intro h
    by_cases hEv : r.eventName = "MODIFY"
    · rw [processRecord, if_neg (by simp [hEv])] at h
      by_cases hcond : ¬ getNumberAttr r.oldImage "ttl" = 0 ∨
          getNumberAttr r.newImage "ttl" = 0
      · rw [if_pos hcond] at h
        simp at h
      · rw [if_neg hcond] at h
        push_neg at hcond
        obtain ⟨ho, hn⟩ := hcond
        cases hq : env.queryAllChildren with
        | error e2 =>
          rw [hq] at h
          simp at h
          subst h
          exact ⟨hEv, ho, hn, rfl⟩
        | ok children =>
          rw [hq] at h
          simp at h
    · rw [processRecord, if_pos (by simp [hEv])] at h
      simp at h
  · rintro ⟨hEv, ho, hn, hq⟩
    rw [processRecord, if_neg (by simp [hEv]), if_neg (by simp [ho, hn]), hq]

/-- C6 (counterexample): a propagating record whose relationship-edge
tombstone fails hard is still acknowledged as success — the handler returns
ok, the failed call visible in its trace — refuting the claim that a hard
failure on the entity's own relationship edge is surfaced for redelivery. -/
theorem cascade_relationship_failure_swallowed :
    (processRecord ⟨.ok [], fun _ => .ok (), .error (.generic 7), fun _ => .ok ()⟩
      ⟨"MODIFY", [], [("ttl", StreamAttr.num "5"),
        ("parent_ref", StreamAttr.str "organization#p")]⟩).2 = .ok () ∧
    (CascadeEnv.setRelationshipTTL
      ⟨.ok [], fun _ => .ok (), .error (.generic 7), fun _ => .ok ()⟩) =
      .error (.generic 7) ∧
    (processRecord ⟨.ok [], fun _ => .ok (), .error (.generic 7), fun _ => .ok ()⟩
      ⟨"MODIFY", [], [("ttl", StreamAttr.num "5"),
        ("parent_ref", StreamAttr.str "organization#p")]⟩).1 =
      [.queriedChildren, .relationshipTTLSet false] :=
  ⟨rfl, rfl, rfl⟩

end Trellis

namespace Trellis

/-- Every row a successful `runRows` returns satisfied the filter. -/
lemma runRows_mem_filter (names : List (String × String)) (values : List (String × AttrVal))
    (kc filt : CondExpr) (rows : List AttrMap) (out : List AttrMap) (item : AttrMap)
    (hrun : runRows names values kc filt rows = .ok out) (hmem : item ∈ out) :
    evalCond names values item filt = some true := by
  induction rows generalizing out with
  | nil =>
    rw [runRows] at hrun
    injection hrun with hrun
    subst hrun
    cases hmem
  | cons row rest ih =>
    rw [runRows] at hrun
    cases h1 : evalCond names values row kc with
    | none =>
      rw [h1] at hrun
      cases h2 : evalCond names values row filt <;> rw [h2] at hrun <;> cases hrun
    | some b1 =>
      cases h2 : evalCond names values row filt with
      | none =>
        rw [h1, h2] at hrun
        cases b1 <;> cases hrun
      | some b2 =>
        rw [h1, h2] at hrun
        cases b1 with
        | false =>
          cases b2 <;> exact ih out hrun hmem
        | true =>
          cases b2 with
          | false => exact ih out hrun hmem
          | true =>
            cases hrec : runRows names values kc filt rest with
            | error e2 =>
              rw [hrec] at hrun
              cases hrun
            | ok out2 =>
              rw [hrec] at hrun
              simp only [Except.map_ok] at hrun
              injection hrun with hrun
              subst hrun
              rcases List.mem_cons.mp hmem with hs | hs
              · subst hs
                exact h2
              · exact ih out2 hrec hs

/-- A true TTL filter under the default bindings of `#ttl` and `:now` means
the item is not tombstoned at the read time. -/
lemma ttlFilter_true (names : List (String × String)) (values : List (String × AttrVal))
    (item : AttrMap) (now : Int)
    (hn : strGet names "#ttl" = some "ttl")
    (hv : attrGet values ":now" = some (.n now))
    (h : evalCond names values item ttlFilterCond = some true) :
    attrGet item "ttl" = none ∨ ∃ t, attrGet item "ttl" = some (.n t) ∧ t > now := by
  have hres : resolveName names "#ttl" = some "ttl" := by
    have h0 : resolveName names "#ttl" = strGet names "#ttl" := rfl
    rw [h0, hn]
  have ha : evalCond names values item (.attrNotExists "#ttl") =
      some ((attrGet item "ttl").isNone) := by
    have h0 : evalCond names values item (.attrNotExists "#ttl") =
        (resolveName names "#ttl").map (fun a => (attrGet item a).isNone) := rfl
    rw [h0, hres]
    rfl
  have hb : evalCond names values item (.gtNum "#ttl" ":now") =
      some (match attrGet item "ttl", AttrVal.n now with
            | some (.n av), .n p => decide (av > p)
            | _, _ => false) := by
    have h0 : evalCond names values item (.gtNum "#ttl" ":now") =
        (match resolveName names "#ttl", attrGet values ":now" with
         | some a, some pv =>
           some (match attrGet item a, pv with
                 | some (.n av), .n p => decide (av > p)
                 | _, _ => false)
         | _, _ => none) := rfl
    rw [h0, hres, hv]
  have h2 : ((attrGet item "ttl").isNone ||
      (match attrGet item "ttl", AttrVal.n now with
       | some (.n av), .n p => decide (av > p)
       | _, _ => false)) = true := by
    have h0 : evalCond names values item ttlFilterCond =
        (match evalCond names values item (.attrNotExists "#ttl"),
               evalCond names values item (.gtNum "#ttl" ":now") with
         | some x, some y => some (x || y)
         | _, _ => none) := rfl
    rw [h0, ha, hb] at h
    injection h
  cases httl : attrGet item "ttl" with
  | none => exact Or.inl rfl
  | some av =>
    rw [httl] at h2
    right
    cases av with
    | n t =>
      simp at h2
      exact ⟨t, rfl, h2⟩
    | s v => simp at h2
    | l vs => simp at h2
    | other => simp at h2

/-- C5 (amended): for every caller-supplied query input that does not rebind
the reserved placeholders — no `#ttl` entry among its expression attribute
names and no `:now` entry among its expression attribute values — every item
Query returns satisfies the tombstone-exclusion condition at read time:
`ttl` absent, or `ttl` strictly greater than the read-time clock.  (A caller
that does rebind `#ttl` or `:now` can defeat the filter; see the
counterexample.) -/
theorem query_ttl_exclusion (table : List AttrMap) (input : QueryInputM) (now : Int)
    (out : List AttrMap) (item : AttrMap)
    (hnames : ∀ v, ("#ttl", v) ∉ input.exprNames)
    (hvalues : ∀ v, (":now", v) ∉ input.exprValues)
    (hq : QueryOp table input now = .ok out) (hmem : item ∈ out) :
    attrGet item "ttl" = none ∨ ∃ t, attrGet item "ttl" = some (.n t) ∧ t > now := by
  rw [QueryOp] at hq
  set nm := input.exprNames.foldl (fun m kv => strSet m kv.1 kv.2) [("#ttl", "ttl")]
    with hnmdef
  set vl := input.exprValues.foldl (fun m kv => attrSet m kv.1 kv.2)
    [(":now", AttrVal.n now)] with hvldef
  have hn : strGet nm "#ttl" = some "ttl" := by
    rw [hnmdef, strGet_foldl_strSet_of_notMem _ _ _ hnames]
    rfl
  have hv : attrGet vl ":now" = some (.n now) := by
    rw [hvldef, attrGet_foldl_attrSet_of_notMem _ _ _ hvalues]
    rfl
  cases hf : input.filter with
  | none =>
    rw [hf] at hq
    have hq2 : runRows nm vl input.keyCond ttlFilterCond table = .ok out := hq
    exact ttlFilter_true nm vl item now hn hv
      (runRows_mem_filter nm vl input.keyCond ttlFilterCond table out item hq2 hmem)
  | some f =>
    rw [hf] at hq
    have hq2 : runRows nm vl input.keyCond (.and f ttlFilterCond) table = .ok out := hq
    have hfilt := runRows_mem_filter nm vl input.keyCond (.and f ttlFilterCond)
      table out item hq2 hmem
    have hfilt2 : (match evalCond nm vl item f, evalCond nm vl item ttlFilterCond with
        | some x, some y => some (x && y)
        | _, _ => none) = some true := hfilt
    have httl : evalCond nm vl item ttlFilterCond = some true := by
      cases ha : evalCond nm vl item f with
      | none =>
        rw [ha] at hfilt2
        cases hb : evalCond nm vl item ttlFilterCond <;> rw [hb] at hfilt2 <;>
          cases hfilt2
      | some x =>
        cases hb : evalCond nm vl item ttlFilterCond with
        | none =>
          rw [ha, hb] at hfilt2
          cases hfilt2
        | some y =>
          rw [ha, hb] at hfilt2
          injection hfilt2 with h3
          have hy : y = true := by
            cases y with
            | true => rfl
            | false => rw [Bool.and_false] at h3; cases h3
          rw [hy]
    exact ttlFilter_true nm vl item now hn hv httl

/-- C5 (counterexample): a caller whose expression attribute values rebind
`:now` to 0 makes Query return an item whose `ttl` (5) is long past the
read-time clock (100) — a tombstoned item — refuting the claim that no
caller input can bypass the tombstone filter. -/
theorem query_now_override_returns_tombstoned :
    QueryOp [[("id", AttrVal.s "x"), ("ttl", AttrVal.n 5)]]
      ⟨.eqPH "id" ":pk", none, [], [(":pk", AttrVal.s "x"), (":now", AttrVal.n 0)]⟩ 100 =
      .ok [[("id", AttrVal.s "x"), ("ttl", AttrVal.n 5)]] ∧
    isDeletedAt [("id", AttrVal.s "x"), ("ttl", AttrVal.n 5)] 100 = true :=
  ⟨rfl, rfl⟩

end Trellis

namespace Trellis

/-- C5 witness: a query that does not touch the reserved placeholders
returns only non-tombstoned items, instantiated at a single active item. -/
theorem query_ttl_exclusion_witness :
    attrGet [("id", AttrVal.s "x"), ("ttl", AttrVal.n 200)] "ttl" = none ∨
    ∃ t, attrGet [("id", AttrVal.s "x"), ("ttl", AttrVal.n 200)] "ttl" =
      some (.n t) ∧ t > 100 :=
  query_ttl_exclusion [[("id", AttrVal.s "x"), ("ttl", AttrVal.n 200)]]
    ⟨.eqPH "id" ":pk", none, [], [(":pk", AttrVal.s "x")]⟩ 100
    [[("id", AttrVal.s "x"), ("ttl", AttrVal.n 200)]]
    [("id", AttrVal.s "x"), ("ttl", AttrVal.n 200)]
    (by intro v hv2; simp at hv2)
    (by intro v hv2; simp at hv2)
    (by rfl)
    (by exact List.mem_singleton.mpr rfl)

/-- C9 (code bug): in the multi-shard `HasActiveChildren`, once every worker
has finished the closer goroutine closes `found` and `errs`, making both
`select` cases ready; the `found` case returns `(true, nil)` without
inspecting the received value, so with two shards that both found nothing and
reported no error the call can return `true` (first conjunct) — the spec says
it must return `(false, nil)`, which only the other `select` choice produces
(third conjunct).  The second conjunct shows the companion defect: the first
`select`'s error case surfaces a sibling's `context.Canceled` unfiltered. -/
theorem hasActiveChildren_multi_shard_bug :
    hasActiveChildrenJoin [.empty, .empty] true = (true, none) ∧
    hasActiveChildrenJoin [.hit, .errOut .ctxCanceled] false =
      (false, some .ctxCanceled) ∧
    hasActiveChildrenJoin [.empty, .empty] false = (false, none) :=
  ⟨rfl, rfl, rfl⟩

end Trellis
